import Mathlib

/-!
Verification of the certus deterministic Python-to-Wasm compiler core.

This file shallowly embeds the Rust sources of the repository:

* `stylus-executor/src/wasm_interpreter.rs` — the single-step Wasm state
  interpreter (`Interp`, `execute_opcode`, `consume_fuel`);
* `stylus-executor/src/lib.rs` — module validation (`validate_determinism`)
  and the module-size gate of `CertusStylusExecutor::execute`;
* `python-verifier/src/lib.rs` — `PythonExecutor::validate_wasm`;
* `python-verifier/src/python_compiler.rs` and
  `python-verifier/src/compiler/mod.rs` — the content-addressed compile
  cache of `PythonCompiler::compile`;
* `python-verifier/src/compiler/codegen.rs` — module shape (`generate`),
  gas metering (`meter_gas`), and the `FloorDiv` instruction sequence;
* `python-verifier/src/compiler/memory.rs` — the semantics of the emitted
  string routines (`equals`, `concat`, `slice`) and of the emitted
  SHA-256 block and `hexdigest` loop.

Embedding conventions:

* 32-bit machine words are `Nat` values below `2 ^ 32` (unsigned view) or
  `Int` values in `[-2^31, 2^31)` (signed view); wrap-around is written
  explicitly with `% 4294967296` (resp. `% 18446744073709551616` for
  64-bit).
* Wasm linear memory is a byte store `Nat → Nat`; `store8` masks the
  written value with `% 256` exactly as an `i32.store8` does.  The emitted
  programs keep every live address below the heap limit `0x400000`, so
  address arithmetic that cannot wrap under the theorems' hypotheses is
  written with plain `Nat` addition.
* Fallible Rust code (`Result<..>`) becomes `Except String` /
  `Except`-of-an-error-enum values; mutation of `&mut self` becomes
  explicit state passing that also returns the (partially updated) state
  on error, matching Rust's in-place mutation.
* Loops in emitted Wasm (`Block`/`Loop`/`BrIf`) become structural
  recursion on the remaining iteration count of the loop counter.
-/

namespace Certus

/-- Unsigned 32-bit wrap-around. -/
def wrapU (n : Nat) : Nat := n % 4294967296

/-- Signed reading of a 32-bit word. -/
def toS32 (n : Nat) : Int := if n < 2147483648 then (n : Int) else (n : Int) - 4294967296

/-- 32-bit word holding a signed value (two's complement). -/
def toU32 (z : Int) : Nat := (z % 4294967296).toNat

/-- Signed 32-bit wrap-around (two's complement). -/
def sWrap32 (z : Int) : Int := toS32 (toU32 z)

/-- Unsigned reading of a signed 64-bit value (two's complement). -/
def toU64 (z : Int) : Nat := (z % 18446744073709551616).toNat

/-- Signed reading of a 64-bit word. -/
def toS64 (n : Nat) : Int :=
  if n < 9223372036854775808 then (n : Int) else (n : Int) - 18446744073709551616

/-- Signed 64-bit wrap-around (two's complement). -/
def sWrap64 (z : Int) : Int := toS64 (toU64 z)

/-- 32-bit rotate right of a word by `k` bit positions (`i32.rotr`). -/
def rotr32 (x k : Nat) : Nat :=
  wrapU ((x >>> (k % 32)) ||| (x <<< ((32 - k % 32) % 32)))

/-- 32-bit rotate left of a word by `k` bit positions (`i32.rotl`). -/
def rotl32 (x k : Nat) : Nat :=
  wrapU ((x <<< (k % 32)) ||| (x >>> ((32 - k % 32) % 32)))

/-- 64-bit rotate right of a word by `k` bit positions. -/
def rotr64 (x k : Nat) : Nat :=
  (x >>> (k % 64) ||| x <<< ((64 - k % 64) % 64)) % 18446744073709551616

/-- 64-bit rotate left of a word by `k` bit positions. -/
def rotl64 (x k : Nat) : Nat :=
  (x <<< (k % 64) ||| x >>> ((64 - k % 64) % 64)) % 18446744073709551616

/-- Number of leading zeros of a 32-bit word (`u32::leading_zeros`). -/
def clz32 (n : Nat) : Nat := 32 - n.size

/-- Number of leading zeros of a 64-bit word. -/
def clz64 (n : Nat) : Nat := 64 - n.size

/-- Trailing-zero count of a positive number, with fuel. -/
def ctzAux : Nat → Nat → Nat
  | 0, _ => 0
  | fuel + 1, n => if n % 2 = 1 then 0 else 1 + ctzAux fuel (n / 2)

/-- Number of trailing zeros of a 32-bit word (`u32::trailing_zeros`). -/
def ctz32 (n : Nat) : Nat := if n = 0 then 32 else ctzAux 32 n

/-- Number of trailing zeros of a 64-bit word. -/
def ctz64 (n : Nat) : Nat := if n = 0 then 64 else ctzAux 64 n

/-- Population count with fuel (`count_ones`). -/
def popAux : Nat → Nat → Nat
  | 0, _ => 0
  | fuel + 1, n => n % 2 + popAux fuel (n / 2)

/-- Number of set bits of a 32-bit word. -/
def popcnt32 (n : Nat) : Nat := popAux 32 n

/-- Number of set bits of a 64-bit word. -/
def popcnt64 (n : Nat) : Nat := popAux 64 n

/-! ## State interpreter (`stylus-executor/src/wasm_interpreter.rs`)

`Interpreter` is embedded as `Interp`; `Vec` push/pop becomes list
cons/uncons with the top of the Rust `Vec` at the head of the list.
Methods taking `&mut self` become functions `Interp → Except String α ×
Interp`: the final state is returned on both success and failure, exactly
as the Rust struct keeps any partial mutation when a method errors. -/

/-- Runtime value of the state interpreter (`enum Value`). -/
inductive Value where
  | I32 (v : Int)
  | I64 (v : Int)
deriving DecidableEq, Repr

/-- Maximum value-stack depth (`MAX_STACK_DEPTH`). -/
def MAX_STACK_DEPTH : Nat := 1024

/-- Interpreter state (`struct Interpreter`). -/
structure Interp where
  stack : List Value
  locals : List Value
  memory : List Nat
  pc : Nat
  callStack : List (Nat × Nat)
  fuel : Nat
deriving DecidableEq, Repr

/-- State-passing computation over the interpreter. -/
def IM (α : Type) : Type := Interp → Except String α × Interp

/-- Return a pure value, leaving the state unchanged. -/
def ipure {α : Type} (a : α) : IM α := fun s => (Except.ok a, s)

/-- Fail with a Rust `&'static str` error, keeping the current state. -/
def ierr {α : Type} (e : String) : IM α := fun s => (Except.error e, s)

/-- Sequencing of interpreter computations (`?` propagation). -/
def ibind {α β : Type} (m : IM α) (f : α → IM β) : IM β := fun s =>
  match m s with
  | (Except.ok a, s') => f a s'
  | (Except.error e, s') => (Except.error e, s')

/-- `Value::as_i32`. -/
def asI32 (v : Value) : IM Int :=
  match v with
  | Value.I32 x => ipure x
  | Value.I64 _ => ierr "type mismatch: expected i32"

/-- `Value::as_i64`. -/
def asI64 (v : Value) : IM Int :=
  match v with
  | Value.I64 x => ipure x
  | Value.I32 _ => ierr "type mismatch: expected i64"

namespace Interp

/-- `Interpreter::push`: bounded by `MAX_STACK_DEPTH`. -/
def push (v : Value) : IM Unit := fun s =>
  if s.stack.length ≥ MAX_STACK_DEPTH then (Except.error "stack overflow", s)
  else (Except.ok (), { s with stack := v :: s.stack })

/-- `Interpreter::pop`. -/
def pop : IM Value := fun s =>
  match s.stack with
  | [] => (Except.error "stack underflow", s)
  | v :: rest => (Except.ok v, { s with stack := rest })

/-- `Interpreter::pop_i32`. -/
def popI32 : IM Int := ibind pop asI32

/-- `Interpreter::pop_i64`. -/
def popI64 : IM Int := ibind pop asI64

/-- `Interpreter::consume_fuel`. -/
def consume_fuel (amount : Nat) : IM Unit := fun s =>
  if s.fuel < amount then (Except.error "out of fuel", s)
  else (Except.ok (), { s with fuel := s.fuel - amount })

/-- `Interpreter::load_memory`: returns the bytes at `[addr, addr+size)`. -/
def load_memory (addr size : Nat) : IM (List Nat) := fun s =>
  if addr + size > s.memory.length then (Except.error "memory access out of bounds", s)
  else (Except.ok ((s.memory.drop addr).take size), s)

/-- Overwrite a list region starting at `addr` with `data`. -/
def setRegion (l : List Nat) (addr : Nat) (data : List Nat) : List Nat :=
  match data with
  | [] => l
  | d :: ds => setRegion (l.set addr d) (addr + 1) ds

/-- `Interpreter::store_memory`. -/
def store_memory (addr : Nat) (data : List Nat) : IM Unit := fun s =>
  if addr + data.length > s.memory.length then (Except.error "memory access out of bounds", s)
  else (Except.ok (), { s with memory := setRegion s.memory addr data })

/-- `read_leb128_u32`: stubbed in the source — bumps `pc`, returns 0. -/
def readLeb (_bytecode : List Nat) : IM Nat := fun s =>
  (Except.ok 0, { s with pc := s.pc + 1 })

end Interp

/-- Little-endian value of a byte list. -/
def leVal (bytes : List Nat) : Nat := bytes.foldr (fun b acc => b + 256 * acc) 0

/-- The four little-endian bytes of a 32-bit word (`i32::to_le_bytes`). -/
def leBytes4 (n : Nat) : List Nat :=
  [n % 256, n / 256 % 256, n / 65536 % 256, n / 16777216 % 256]

/-- The eight little-endian bytes of a 64-bit word (`i64::to_le_bytes`). -/
def leBytes8 (n : Nat) : List Nat :=
  [n % 256, n / 256 % 256, n / 65536 % 256, n / 16777216 % 256,
   n / 4294967296 % 256, n / 1099511627776 % 256,
   n / 281474976710656 % 256, n / 72057594037927936 % 256]

/-- Shift amount of an `i32` shift: Rust `(b & 31) as u32`. -/
def shamt32 (b : Int) : Nat := toU32 b % 32

/-- Shift amount of an `i64` shift: Rust `(b & 63) as u32`. -/
def shamt64 (b : Int) : Nat := toU64 b % 64

/-- Pop two `i32` operands and push the `i32` result. -/
def binop32 (f : Int → Int → Int) : IM Unit :=
  ibind Interp.popI32 fun b => ibind Interp.popI32 fun a =>
    Interp.push (Value.I32 (f a b))

/-- Pop two `i32` operands, error on zero divisor, push the result. -/
def divop32 (f : Int → Int → Int) : IM Unit :=
  ibind Interp.popI32 fun b => ibind Interp.popI32 fun a =>
    if b = 0 then ierr "integer divide by zero" else Interp.push (Value.I32 (f a b))

/-- Pop two `i32` operands and push the comparison result as 1 or 0. -/
def cmp32 (p : Int → Int → Bool) : IM Unit :=
  ibind Interp.popI32 fun b => ibind Interp.popI32 fun a =>
    Interp.push (Value.I32 (if p a b then 1 else 0))

/-- Pop one `i32` operand and push the test result as 1 or 0. -/
def test32 (p : Int → Bool) : IM Unit :=
  ibind Interp.popI32 fun v => Interp.push (Value.I32 (if p v then 1 else 0))

/-- Pop one `i32` operand and push an `i32` result. -/
def unop32 (f : Int → Int) : IM Unit :=
  ibind Interp.popI32 fun v => Interp.push (Value.I32 (f v))

/-- Pop two `i64` operands and push the `i64` result. -/
def binop64 (f : Int → Int → Int) : IM Unit :=
  ibind Interp.popI64 fun b => ibind Interp.popI64 fun a =>
    Interp.push (Value.I64 (f a b))

/-- Pop two `i64` operands, error on zero divisor, push the result. -/
def divop64 (f : Int → Int → Int) : IM Unit :=
  ibind Interp.popI64 fun b => ibind Interp.popI64 fun a =>
    if b = 0 then ierr "integer divide by zero" else Interp.push (Value.I64 (f a b))

/-- Pop two `i64` operands and push the `i32` comparison result. -/
def cmp64 (p : Int → Int → Bool) : IM Unit :=
  ibind Interp.popI64 fun b => ibind Interp.popI64 fun a =>
    Interp.push (Value.I32 (if p a b then 1 else 0))

/-- Pop one `i64` operand and push the test result as `i32` 1 or 0. -/
def test64 (p : Int → Bool) : IM Unit :=
  ibind Interp.popI64 fun v => Interp.push (Value.I32 (if p v then 1 else 0))

/-- Pop one `i64` operand and push an `i64` result. -/
def unop64 (f : Int → Int) : IM Unit :=
  ibind Interp.popI64 fun v => Interp.push (Value.I64 (f v))

/-- `i32.load` (opcode 0x28): align and offset immediates, then load. -/
def loadOp32 (bc : List Nat) : IM Unit :=
  ibind (Interp.readLeb bc) fun _align => ibind (Interp.readLeb bc) fun offset =>
  ibind Interp.popI32 fun base =>
  ibind (Interp.load_memory (toU64 base + offset) 4) fun bytes =>
  Interp.push (Value.I32 (toS32 (leVal bytes)))

/-- `i64.load` (opcode 0x29). -/
def loadOp64 (bc : List Nat) : IM Unit :=
  ibind (Interp.readLeb bc) fun _align => ibind (Interp.readLeb bc) fun offset =>
  ibind Interp.popI32 fun base =>
  ibind (Interp.load_memory (toU64 base + offset) 8) fun bytes =>
  Interp.push (Value.I64 (toS64 (leVal bytes)))

/-- `i32.store` (opcode 0x36): pops the value, then the address. -/
def storeOp32 (bc : List Nat) : IM Unit :=
  ibind (Interp.readLeb bc) fun _align => ibind (Interp.readLeb bc) fun offset =>
  ibind Interp.popI32 fun v => ibind Interp.popI32 fun base =>
  Interp.store_memory (toU64 base + offset) (leBytes4 (toU32 v))

/-- `i64.store` (opcode 0x37). -/
def storeOp64 (bc : List Nat) : IM Unit :=
  ibind (Interp.readLeb bc) fun _align => ibind (Interp.readLeb bc) fun offset =>
  ibind Interp.popI64 fun v => ibind Interp.popI32 fun base =>
  Interp.store_memory (toU64 base + offset) (leBytes8 (toU64 v))

/-- `local.get` (opcode 0x20). -/
def localGet (bc : List Nat) : IM Unit :=
  ibind (Interp.readLeb bc) fun idx => fun s =>
    if idx ≥ s.locals.length then (Except.error "local index out of bounds", s)
    else Interp.push (s.locals.getD idx (Value.I32 0)) s

/-- `local.set` (opcode 0x21). -/
def localSet (bc : List Nat) : IM Unit :=
  ibind (Interp.readLeb bc) fun idx => fun s =>
    if idx ≥ s.locals.length then (Except.error "local index out of bounds", s)
    else (ibind Interp.pop fun v => fun s2 =>
      (Except.ok (), { s2 with locals := s2.locals.set idx v })) s

/-- `local.tee` (opcode 0x22): like `local.set` but re-pushes the value. -/
def localTee (bc : List Nat) : IM Unit :=
  ibind (Interp.readLeb bc) fun idx => fun s =>
    if idx ≥ s.locals.length then (Except.error "local index out of bounds", s)
    else (ibind Interp.pop fun v => fun s2 =>
      Interp.push v { s2 with locals := s2.locals.set idx v }) s

/-- Opcode dispatch: the body of `Interpreter::execute_opcode` after the
initial `consume_fuel(1)?`.  The `read_leb128_i32`/`i64`/`u32` helpers are
all stubbed in the source (bump `pc`, return 0) and are embedded by the
single `Interp.readLeb`. -/
def dispatch (opcode : Nat) (bc : List Nat) : IM Unit :=
  match opcode with
  | 0x00 => ierr "unreachable executed"
  | 0x01 => ipure ()
  | 0x41 => ibind (Interp.readLeb bc) fun v => Interp.push (Value.I32 (Int.ofNat v))
  | 0x42 => ibind (Interp.readLeb bc) fun v => Interp.push (Value.I64 (Int.ofNat v))
  | 0x20 => localGet bc
  | 0x21 => localSet bc
  | 0x22 => localTee bc
  | 0x28 => loadOp32 bc
  | 0x29 => loadOp64 bc
  | 0x36 => storeOp32 bc
  | 0x37 => storeOp64 bc
  | 0x45 => test32 (fun v => v = 0)
  | 0x46 => cmp32 (fun a b => a = b)
  | 0x47 => cmp32 (fun a b => a ≠ b)
  | 0x48 => cmp32 (fun a b => a < b)
  | 0x49 => cmp32 (fun a b => toU32 a < toU32 b)
  | 0x4A => cmp32 (fun a b => a > b)
  | 0x4B => cmp32 (fun a b => toU32 a > toU32 b)
  | 0x4C => cmp32 (fun a b => a ≤ b)
  | 0x4D => cmp32 (fun a b => toU32 a ≤ toU32 b)
  | 0x4E => cmp32 (fun a b => a ≥ b)
  | 0x4F => cmp32 (fun a b => toU32 a ≥ toU32 b)
  | 0x50 => test64 (fun v => v = 0)
  | 0x51 => cmp64 (fun a b => a = b)
  | 0x52 => cmp64 (fun a b => a ≠ b)
  | 0x53 => cmp64 (fun a b => a < b)
  | 0x54 => cmp64 (fun a b => toU64 a < toU64 b)
  | 0x55 => cmp64 (fun a b => a > b)
  | 0x56 => cmp64 (fun a b => toU64 a > toU64 b)
  | 0x57 => cmp64 (fun a b => a ≤ b)
  | 0x58 => cmp64 (fun a b => toU64 a ≤ toU64 b)
  | 0x59 => cmp64 (fun a b => a ≥ b)
  | 0x5A => cmp64 (fun a b => toU64 a ≥ toU64 b)
  | 0x67 => unop32 (fun v => Int.ofNat (clz32 (toU32 v)))
  | 0x68 => unop32 (fun v => Int.ofNat (ctz32 (toU32 v)))
  | 0x69 => unop32 (fun v => Int.ofNat (popcnt32 (toU32 v)))
  | 0x6A => binop32 (fun a b => sWrap32 (a + b))
  | 0x6B => binop32 (fun a b => sWrap32 (a - b))
  | 0x6C => binop32 (fun a b => sWrap32 (a * b))
  | 0x6D => divop32 (fun a b => sWrap32 (Int.tdiv a b))
  | 0x6E => divop32 (fun a b => toS32 (toU32 a / toU32 b))
  | 0x6F => divop32 (fun a b => sWrap32 (Int.tmod a b))
  | 0x70 => divop32 (fun a b => toS32 (toU32 a % toU32 b))
  | 0x71 => binop32 (fun a b => toS32 (Nat.land (toU32 a) (toU32 b)))
  | 0x72 => binop32 (fun a b => toS32 (Nat.lor (toU32 a) (toU32 b)))
  | 0x73 => binop32 (fun a b => toS32 (Nat.xor (toU32 a) (toU32 b)))
  | 0x74 => binop32 (fun a b => toS32 (wrapU (toU32 a <<< shamt32 b)))
  | 0x75 => binop32 (fun a b => Int.fdiv a (2 ^ shamt32 b))
  | 0x76 => binop32 (fun a b => toS32 (toU32 a >>> shamt32 b))
  | 0x77 => binop32 (fun a b => toS32 (rotl32 (toU32 a) (shamt32 b)))
  | 0x78 => binop32 (fun a b => toS32 (rotr32 (toU32 a) (shamt32 b)))
  | 0x79 => unop64 (fun v => Int.ofNat (clz64 (toU64 v)))
  | 0x7A => unop64 (fun v => Int.ofNat (ctz64 (toU64 v)))
  | 0x7B => unop64 (fun v => Int.ofNat (popcnt64 (toU64 v)))
  | 0x7C => binop64 (fun a b => sWrap64 (a + b))
  | 0x7D => binop64 (fun a b => sWrap64 (a - b))
  | 0x7E => binop64 (fun a b => sWrap64 (a * b))
  | 0x7F => divop64 (fun a b => sWrap64 (Int.tdiv a b))
  | 0x80 => divop64 (fun a b => toS64 (toU64 a / toU64 b))
  | 0x81 => divop64 (fun a b => sWrap64 (Int.tmod a b))
  | 0x82 => divop64 (fun a b => toS64 (toU64 a % toU64 b))
  | 0x83 => binop64 (fun a b => toS64 (Nat.land (toU64 a) (toU64 b)))
  | 0x84 => binop64 (fun a b => toS64 (Nat.lor (toU64 a) (toU64 b)))
  | 0x85 => binop64 (fun a b => toS64 (Nat.xor (toU64 a) (toU64 b)))
  | 0x86 => binop64 (fun a b => toS64 ((toU64 a <<< shamt64 b) % 18446744073709551616))
  | 0x87 => binop64 (fun a b => Int.fdiv a (2 ^ shamt64 b))
  | 0x88 => binop64 (fun a b => toS64 (toU64 a >>> shamt64 b))
  | 0x89 => binop64 (fun a b => toS64 (rotl64 (toU64 a) (shamt64 b)))
  | 0x8A => binop64 (fun a b => toS64 (rotr64 (toU64 a) (shamt64 b)))
  | _ => ierr "unsupported opcode"

/-- `Interpreter::execute_opcode`: deduct one unit of fuel, then dispatch. -/
def execute_opcode (opcode : Nat) (bc : List Nat) : IM Unit :=
  ibind (Interp.consume_fuel 1) fun _ => dispatch opcode bc

/-- A computation neither touches the fuel counter nor reports fuel
exhaustion. -/
def FuelSafe {α : Type} (m : IM α) : Prop :=
  ∀ s, ((m s).2.fuel = s.fuel) ∧ (∀ e, (m s).1 = Except.error e → e ≠ "out of fuel")

theorem error_ne_fuel {α : Type} {e0 e : String} (h : e0 ≠ "out of fuel")
    (he : (Except.error e0 : Except String α) = Except.error e) : e ≠ "out of fuel" := by
  injection he with h2
  exact h2 ▸ h

theorem fuelSafe_ipure {α : Type} (a : α) : FuelSafe (ipure a) := by
  intro s
  exact ⟨rfl, fun e he => by simp [ipure] at he⟩

theorem fuelSafe_ierr {α : Type} (e0 : String) (h : e0 ≠ "out of fuel") :
    FuelSafe (ierr e0 : IM α) := by
  intro s
  exact ⟨rfl, fun e he => error_ne_fuel h he⟩

theorem fuelSafe_ibind {α β : Type} {m : IM α} {f : α → IM β}
    (hm : FuelSafe m) (hf : ∀ a, FuelSafe (f a)) : FuelSafe (ibind m f) := by
  intro s
  have h1 := hm s
  unfold ibind
  cases hms : m s with
  | mk r s' =>
    rw [hms] at h1
    cases r with
    | ok a =>
      have h2 := hf a s'
      exact ⟨h2.1.trans h1.1, h2.2⟩
    | error e =>
      dsimp only
      refine ⟨h1.1, fun e1 he1 => ?_⟩
      injection he1 with h2
      exact h1.2 e1 (h2 ▸ rfl)

theorem fuelSafe_push (v : Value) : FuelSafe (Interp.push v) := by
  intro s
  unfold Interp.push
  by_cases h : s.stack.length ≥ MAX_STACK_DEPTH
  · rw [if_pos h]
    exact ⟨rfl, fun e he => error_ne_fuel (by decide) he⟩
  · rw [if_neg h]
    exact ⟨rfl, fun e he => by simp at he⟩

theorem fuelSafe_pop : FuelSafe Interp.pop := by
  intro s
  unfold Interp.pop
  cases s.stack with
  | nil => exact ⟨rfl, fun e he => error_ne_fuel (by decide) he⟩
  | cons v rest => exact ⟨rfl, fun e he => by simp at he⟩

theorem fuelSafe_asI32 (v : Value) : FuelSafe (asI32 v) := by
  cases v with
  | I32 x => exact fuelSafe_ipure x
  | I64 x => exact fuelSafe_ierr _ (by decide)

theorem fuelSafe_asI64 (v : Value) : FuelSafe (asI64 v) := by
  cases v with
  | I64 x => exact fuelSafe_ipure x
  | I32 x => exact fuelSafe_ierr _ (by decide)

theorem fuelSafe_popI32 : FuelSafe Interp.popI32 :=
  fuelSafe_ibind fuelSafe_pop fuelSafe_asI32

theorem fuelSafe_popI64 : FuelSafe Interp.popI64 :=
  fuelSafe_ibind fuelSafe_pop fuelSafe_asI64

theorem fuelSafe_load_memory (addr size : Nat) :
    FuelSafe (Interp.load_memory addr size) := by
  intro s
  unfold Interp.load_memory
  by_cases h : addr + size > s.memory.length
  · rw [if_pos h]
    exact ⟨rfl, fun e he => error_ne_fuel (by decide) he⟩
  · rw [if_neg h]
    exact ⟨rfl, fun e he => by simp at he⟩

theorem fuelSafe_store_memory (addr : Nat) (data : List Nat) :
    FuelSafe (Interp.store_memory addr data) := by
  intro s
  unfold Interp.store_memory
  by_cases h : addr + data.length > s.memory.length
  · rw [if_pos h]
    exact ⟨rfl, fun e he => error_ne_fuel (by decide) he⟩
  · rw [if_neg h]
    exact ⟨rfl, fun e he => by simp at he⟩

theorem fuelSafe_readLeb (bc : List Nat) : FuelSafe (Interp.readLeb bc) := by
  intro s
  exact ⟨rfl, fun e he => by simp [Interp.readLeb] at he⟩

theorem fuelSafe_localGet (bc : List Nat) : FuelSafe (localGet bc) := by
  refine fuelSafe_ibind (fuelSafe_readLeb bc) fun idx => ?_
  intro s
  dsimp only
  by_cases h : idx ≥ s.locals.length
  · rw [if_pos h]
    exact ⟨rfl, fun e he => error_ne_fuel (by decide) he⟩
  · rw [if_neg h]
    exact fuelSafe_push (s.locals.getD idx (Value.I32 0)) s

theorem fuelSafe_localSet (bc : List Nat) : FuelSafe (localSet bc) := by
  refine fuelSafe_ibind (fuelSafe_readLeb bc) fun idx => ?_
  intro s
  dsimp only
  by_cases h : idx ≥ s.locals.length
  · rw [if_pos h]
    exact ⟨rfl, fun e he => error_ne_fuel (by decide) he⟩
  · rw [if_neg h]
    exact fuelSafe_ibind fuelSafe_pop
      (fun v => fun s2 => ⟨rfl, fun e he => by simp at he⟩) s

theorem fuelSafe_localTee (bc : List Nat) : FuelSafe (localTee bc) := by
  refine fuelSafe_ibind (fuelSafe_readLeb bc) fun idx => ?_
  intro s
  dsimp only
  by_cases h : idx ≥ s.locals.length
  · rw [if_pos h]
    exact ⟨rfl, fun e he => error_ne_fuel (by decide) he⟩
  · rw [if_neg h]
    exact fuelSafe_ibind fuelSafe_pop
      (fun v => fun s2 => fuelSafe_push v { s2 with locals := s2.locals.set idx v }) s

theorem fuelSafe_binop32 (f : Int → Int → Int) : FuelSafe (binop32 f) :=
  fuelSafe_ibind fuelSafe_popI32 fun b =>
    fuelSafe_ibind fuelSafe_popI32 fun a => fuelSafe_push _

theorem fuelSafe_divop32 (f : Int → Int → Int) : FuelSafe (divop32 f) := by
  refine fuelSafe_ibind fuelSafe_popI32 fun b =>
    fuelSafe_ibind fuelSafe_popI32 fun a => ?_
  by_cases h : b = 0
  · simpa [divop32, h] using @fuelSafe_ierr Unit _ (by decide)
  · simpa [divop32, h] using fuelSafe_push (Value.I32 (f a b))

theorem fuelSafe_cmp32 (p : Int → Int → Bool) : FuelSafe (cmp32 p) :=
  fuelSafe_ibind fuelSafe_popI32 fun b =>
    fuelSafe_ibind fuelSafe_popI32 fun a => fuelSafe_push _

theorem fuelSafe_test32 (p : Int → Bool) : FuelSafe (test32 p) :=
  fuelSafe_ibind fuelSafe_popI32 fun v => fuelSafe_push _

theorem fuelSafe_unop32 (f : Int → Int) : FuelSafe (unop32 f) :=
  fuelSafe_ibind fuelSafe_popI32 fun v => fuelSafe_push _

theorem fuelSafe_binop64 (f : Int → Int → Int) : FuelSafe (binop64 f) :=
  fuelSafe_ibind fuelSafe_popI64 fun b =>
    fuelSafe_ibind fuelSafe_popI64 fun a => fuelSafe_push _

theorem fuelSafe_divop64 (f : Int → Int → Int) : FuelSafe (divop64 f) := by
  refine fuelSafe_ibind fuelSafe_popI64 fun b =>
    fuelSafe_ibind fuelSafe_popI64 fun a => ?_
  by_cases h : b = 0
  · simpa [divop64, h] using @fuelSafe_ierr Unit _ (by decide)
  · simpa [divop64, h] using fuelSafe_push (Value.I64 (f a b))

theorem fuelSafe_cmp64 (p : Int → Int → Bool) : FuelSafe (cmp64 p) :=
  fuelSafe_ibind fuelSafe_popI64 fun b =>
    fuelSafe_ibind fuelSafe_popI64 fun a => fuelSafe_push _

theorem fuelSafe_test64 (p : Int → Bool) : FuelSafe (test64 p) :=
  fuelSafe_ibind fuelSafe_popI64 fun v => fuelSafe_push _

theorem fuelSafe_unop64 (f : Int → Int) : FuelSafe (unop64 f) :=
  fuelSafe_ibind fuelSafe_popI64 fun v => fuelSafe_push _

theorem fuelSafe_loadOp32 (bc : List Nat) : FuelSafe (loadOp32 bc) :=
  fuelSafe_ibind (fuelSafe_readLeb bc) fun _ =>
    fuelSafe_ibind (fuelSafe_readLeb bc) fun _ =>
      fuelSafe_ibind fuelSafe_popI32 fun _ =>
        fuelSafe_ibind (fuelSafe_load_memory _ _) fun _ => fuelSafe_push _

theorem fuelSafe_loadOp64 (bc : List Nat) : FuelSafe (loadOp64 bc) :=
  fuelSafe_ibind (fuelSafe_readLeb bc) fun _ =>
    fuelSafe_ibind (fuelSafe_readLeb bc) fun _ =>
      fuelSafe_ibind fuelSafe_popI32 fun _ =>
        fuelSafe_ibind (fuelSafe_load_memory _ _) fun _ => fuelSafe_push _

theorem fuelSafe_storeOp32 (bc : List Nat) : FuelSafe (storeOp32 bc) :=
  fuelSafe_ibind (fuelSafe_readLeb bc) fun _ =>
    fuelSafe_ibind (fuelSafe_readLeb bc) fun _ =>
      fuelSafe_ibind fuelSafe_popI32 fun _ =>
        fuelSafe_ibind fuelSafe_popI32 fun _ => fuelSafe_store_memory _ _

theorem fuelSafe_storeOp64 (bc : List Nat) : FuelSafe (storeOp64 bc) :=
  fuelSafe_ibind (fuelSafe_readLeb bc) fun _ =>
    fuelSafe_ibind (fuelSafe_readLeb bc) fun _ =>
      fuelSafe_ibind fuelSafe_popI64 fun _ =>
        fuelSafe_ibind fuelSafe_popI32 fun _ => fuelSafe_store_memory _ _

set_option maxHeartbeats 2000000 in
theorem dispatch_fuelSafe (op : Nat) (bc : List Nat) : FuelSafe (dispatch op bc) := by
  unfold dispatch
  split
  all_goals first
    | exact fuelSafe_ierr _ (by decide)
    | exact fuelSafe_ipure _
    | exact fuelSafe_ibind (fuelSafe_readLeb bc) fun v => fuelSafe_push _
    | exact fuelSafe_localGet bc
    | exact fuelSafe_localSet bc
    | exact fuelSafe_localTee bc
    | exact fuelSafe_loadOp32 bc
    | exact fuelSafe_loadOp64 bc
    | exact fuelSafe_storeOp32 bc
    | exact fuelSafe_storeOp64 bc
    | exact fuelSafe_test32 _
    | exact fuelSafe_cmp32 _
    | exact fuelSafe_test64 _
    | exact fuelSafe_cmp64 _
    | exact fuelSafe_unop32 _
    | exact fuelSafe_unop64 _
    | exact fuelSafe_binop32 _
    | exact fuelSafe_binop64 _
    | exact fuelSafe_divop32 _
    | exact fuelSafe_divop64 _

/-- `execute_opcode` unfolded: fuel gate first, then dispatch on the
decremented state. -/
theorem execute_opcode_eq (op : Nat) (bc : List Nat) (s : Interp) :
    execute_opcode op bc s =
      if s.fuel = 0 then (Except.error "out of fuel", s)
      else dispatch op bc { s with fuel := s.fuel - 1 } := by
  unfold execute_opcode ibind Interp.consume_fuel
  by_cases h : s.fuel < 1
  · rw [if_pos h, if_pos (by omega)]
  · rw [if_neg h, if_neg (by omega)]

/-- Evaluation of a signed-division-style `i32` opcode body on a
well-typed stack. -/
theorem divop32_eval (f : Int → Int → Int) (s : Interp) (a b : Int) (rest : List Value)
    (hs : s.stack = Value.I32 b :: Value.I32 a :: rest)
    (hlen : rest.length < MAX_STACK_DEPTH) :
    divop32 f s =
      if b = 0 then (Except.error "integer divide by zero", { s with stack := rest })
      else (Except.ok (), { s with stack := Value.I32 (f a b) :: rest }) := by
  have hpush : ¬ (rest.length ≥ MAX_STACK_DEPTH) := by omega
  by_cases hb : b = 0
  · simp [divop32, ibind, Interp.popI32, Interp.pop, asI32, ipure, ierr, hs, hb]
  · simp [divop32, ibind, Interp.popI32, Interp.pop, asI32, ipure, ierr,
      Interp.push, hs, hb, hpush]

/-- Evaluation of a signed-division-style `i64` opcode body on a
well-typed stack. -/
theorem divop64_eval (f : Int → Int → Int) (s : Interp) (a b : Int) (rest : List Value)
    (hs : s.stack = Value.I64 b :: Value.I64 a :: rest)
    (hlen : rest.length < MAX_STACK_DEPTH) :
    divop64 f s =
      if b = 0 then (Except.error "integer divide by zero", { s with stack := rest })
      else (Except.ok (), { s with stack := Value.I64 (f a b) :: rest }) := by
  have hpush : ¬ (rest.length ≥ MAX_STACK_DEPTH) := by omega
  by_cases hb : b = 0
  · simp [divop64, ibind, Interp.popI64, Interp.pop, asI64, ipure, ierr, hs, hb]
  · simp [divop64, ibind, Interp.popI64, Interp.pop, asI64, ipure, ierr,
      Interp.push, hs, hb, hpush]

/-- C9: `execute_opcode` returns the out-of-fuel error exactly when the
fuel counter is 0 on entry, in which case the interpreter state is
unchanged; otherwise exactly one unit of fuel is deducted, and the
deduction happens before the opcode is dispatched — the dispatched body
never changes the fuel counter, whether it succeeds or errors. -/
theorem C9_execute_opcode_fuel (s : Interp) (op : Nat) (bc : List Nat) :
    ((execute_opcode op bc s).1 = Except.error "out of fuel" ↔ s.fuel = 0)
    ∧ (s.fuel = 0 → (execute_opcode op bc s).2 = s)
    ∧ (s.fuel ≠ 0 →
        execute_opcode op bc s = dispatch op bc { s with fuel := s.fuel - 1 }
        ∧ ((execute_opcode op bc s).2).fuel = s.fuel - 1) := by
  have he := execute_opcode_eq op bc s
  by_cases h0 : s.fuel = 0
  · rw [he, if_pos h0]
    exact ⟨⟨fun _ => h0, fun _ => rfl⟩, fun _ => rfl, fun hne => absurd h0 hne⟩
  · rw [he, if_neg h0]
    have hd := dispatch_fuelSafe op bc { s with fuel := s.fuel - 1 }
    exact ⟨⟨fun herr => absurd rfl (hd.2 _ herr), fun h => absurd h h0⟩,
      fun h => absurd h h0, fun _ => ⟨rfl, hd.1⟩⟩

theorem C9_witness :
    (execute_opcode 0x6A [] ⟨[], [], [], 0, [], 0⟩).1 = Except.error "out of fuel"
    ∧ ((execute_opcode 0x6A [] ⟨[Value.I32 1, Value.I32 2], [], [], 0, [], 5⟩).2).fuel = 4 :=
  ⟨(C9_execute_opcode_fuel ⟨[], [], [], 0, [], 0⟩ 0x6A []).1.mpr rfl,
   ((C9_execute_opcode_fuel ⟨[Value.I32 1, Value.I32 2], [], [], 0, [], 5⟩ 0x6A []).2.2
      (by decide)).2⟩

/-- C10: the interpreter's signed division opcodes `0x6D` (`i32.div_s`)
and `0x7F` (`i64.div_s`) error only on a zero divisor; on the
overflow pair (minimum integer, −1) they do not trap but push the
wrapped quotient, which is again the minimum integer — unlike standard
Wasm semantics, which trap there. -/
theorem C10_div_s_wrapping (s t : Interp) (a b c d : Int)
    (rest rest' : List Value)
    (hf : s.fuel ≠ 0) (hs : s.stack = Value.I32 b :: Value.I32 a :: rest)
    (hlen : rest.length < MAX_STACK_DEPTH)
    (ht : t.fuel ≠ 0) (hts : t.stack = Value.I64 d :: Value.I64 c :: rest')
    (hlen' : rest'.length < MAX_STACK_DEPTH) :
    ((execute_opcode 0x6D [] s).1 = Except.ok () ↔ b ≠ 0)
    ∧ (b = 0 → (execute_opcode 0x6D [] s).1 = Except.error "integer divide by zero")
    ∧ (b ≠ 0 → execute_opcode 0x6D [] s =
        (Except.ok (), { s with fuel := s.fuel - 1,
                                stack := Value.I32 (sWrap32 (Int.tdiv a b)) :: rest }))
    ∧ sWrap32 (Int.tdiv (-2147483648) (-1)) = -2147483648
    ∧ ((execute_opcode 0x7F [] t).1 = Except.ok () ↔ d ≠ 0)
    ∧ (d = 0 → (execute_opcode 0x7F [] t).1 = Except.error "integer divide by zero")
    ∧ (d ≠ 0 → execute_opcode 0x7F [] t =
        (Except.ok (), { t with fuel := t.fuel - 1,
                                stack := Value.I64 (sWrap64 (Int.tdiv c d)) :: rest' }))
    ∧ sWrap64 (Int.tdiv (-9223372036854775808) (-1)) = -9223372036854775808 := by
  have h6D : dispatch 0x6D ([] : List Nat) = divop32 (fun x y => sWrap32 (Int.tdiv x y)) := rfl
  have h7F : dispatch 0x7F ([] : List Nat) = divop64 (fun x y => sWrap64 (Int.tdiv x y)) := rfl
  have he := execute_opcode_eq 0x6D [] s
  rw [if_neg hf, h6D,
    divop32_eval _ { s with fuel := s.fuel - 1 } a b rest (by simpa using hs) hlen] at he
  have he' := execute_opcode_eq 0x7F [] t
  rw [if_neg ht, h7F,
    divop64_eval _ { t with fuel := t.fuel - 1 } c d rest' (by simpa using hts) hlen'] at he'
  refine ⟨?_, ?_, ?_, by decide, ?_, ?_, ?_, by decide⟩
  · by_cases hb : b = 0
    · rw [he, if_pos hb]
      exact ⟨fun h => by simp at h, fun h => absurd hb h⟩
    · rw [he, if_neg hb]
      exact ⟨fun _ => hb, fun _ => rfl⟩
  · intro hb
    rw [he, if_pos hb]
  · intro hb
    rw [he, if_neg hb]
  · by_cases hd : d = 0
    · rw [he', if_pos hd]
      exact ⟨fun h => by simp at h, fun h => absurd hd h⟩
    · rw [he', if_neg hd]
      exact ⟨fun _ => hd, fun _ => rfl⟩
  · intro hd
    rw [he', if_pos hd]
  · intro hd
    rw [he', if_neg hd]

theorem C10_witness :
    execute_opcode 0x6D [] ⟨[Value.I32 (-1), Value.I32 (-2147483648)], [], [], 0, [], 7⟩ =
      (Except.ok (), ⟨[Value.I32 (-2147483648)], [], [], 0, [], 6⟩)
    ∧ execute_opcode 0x7F []
        ⟨[Value.I64 (-1), Value.I64 (-9223372036854775808)], [], [], 0, [], 7⟩ =
      (Except.ok (), ⟨[Value.I64 (-9223372036854775808)], [], [], 0, [], 6⟩) := by
  have h := C10_div_s_wrapping
    ⟨[Value.I32 (-1), Value.I32 (-2147483648)], [], [], 0, [], 7⟩
    ⟨[Value.I64 (-1), Value.I64 (-9223372036854775808)], [], [], 0, [], 7⟩
    (-2147483648) (-1) (-9223372036854775808) (-1) [] []
    (by decide) rfl (by decide) (by decide) rfl (by decide)
  constructor
  · have := h.2.2.1 (by decide)
    rw [this]
    have hw : sWrap32 (Int.tdiv (-2147483648) (-1)) = -2147483648 := by decide
    rw [hw]
    rfl
  · have := h.2.2.2.2.2.2.1 (by decide)
    rw [this]
    have hw : sWrap64 (Int.tdiv (-9223372036854775808) (-1)) = -9223372036854775808 := by decide
    rw [hw]
    rfl

/-! ## Code generator data model (`python-verifier/src/compiler/ir.rs`,
`python-verifier/src/compiler/codegen.rs`) -/

mutual
/-- IR statements (`enum IRStmt`). -/
inductive IRStmt where
  | assign (var : String) (value : IRExpr)
  | subscriptAssign (target index value : IRExpr)
  | ret (e : IRExpr)
  | ite (cond : IRExpr) (thenBlock elseBlock : List IRStmt)
  | while (cond : IRExpr) (body : List IRStmt)
  | forRange (var : String) (iter : IRExpr) (body : List IRStmt)
  | expr (e : IRExpr)
  | block (stmts : List IRStmt)

/-- IR expressions (`enum IRExpr`). -/
inductive IRExpr where
  | const (v : Int)
  | str (s : String)
  | loadLocal (name : String)
  | binOp (op : Nat) (left right : IRExpr)
  | unaryOp (op : Nat) (operand : IRExpr)
  | call (fn : String) (args : List IRExpr)
  | list (elements : List IRExpr)
  | dict (pairs : List (IRExpr × IRExpr))
  | subscript (value index : IRExpr)
  | slice (value : IRExpr) (start? end? : Option IRExpr)
  | ifExpr (cond thenVal elseVal : IRExpr)
end

/-- IR function (`struct IRFunction`), with the untouched-by-codegen
`local_map` as an association list. -/
structure IRFunction where
  name : String
  params : List String
  locals : List String
  localMap : List (String × Nat)
  tempLocals : Nat
  body : List IRStmt

/-- Wasm export kind as used by `generate`. -/
inductive ExportKind where
  | func
  | memory
deriving DecidableEq, Repr

/-- One entry of the emitted export section. -/
structure ExportEntry where
  name : String
  kind : ExportKind
  index : Nat
deriving DecidableEq, Repr

/-- `GAS_LIMIT` of `codegen.rs` / `python_compiler.rs`. -/
def GAS_LIMIT : Int := 100000000

/-- `HEAP_START`. -/
def HEAP_START : Int := 0x10000

/-- `HEAP_LIMIT`. -/
def HEAP_LIMIT_I : Int := 0x400000

/-- The structured contents of the module sections assembled by
`WasmCodegen::generate`: one type per IR function (its parameter count,
single i32 result), the single `env.memory (16, 256)` import, function
`i` of type `i`, the three globals (mutable gas initialized to 0, mutable
heap pointer at `HEAP_START`, immutable heap limit), the export section,
and one code body per function (bodies are modelled separately by the
snippet semantics below). -/
structure WasmModuleShape where
  typeParamCounts : List Nat
  importMemory : Nat × Nat
  funcTypeIdx : List Nat
  globals : List (Bool × Int)
  exports : List ExportEntry
  codeCount : Nat

namespace WasmCodegen

/-- Section assembly of `WasmCodegen::generate` (`codegen.rs`). -/
def generate (functions : List IRFunction) : WasmModuleShape :=
  { typeParamCounts := functions.map (fun f => f.params.length)
    importMemory := (16, 256)
    funcTypeIdx := List.range functions.length
    globals := [(true, 0), (true, HEAP_START), (false, HEAP_LIMIT_I)]
    exports := [⟨"main", ExportKind.func, 0⟩, ⟨"memory", ExportKind.memory, 0⟩]
    codeCount := functions.length }

/-- Index of the gas scratch local chosen by `generate_function`: the last
reserved scratch slot, `func.locals.len() + func.temp_locals - 1`. -/
def gas_temp_local (f : IRFunction) : Nat := f.locals.length + f.tempLocals - 1

/-- Semantics of the instruction sequence emitted by
`WasmCodegen::meter_gas`: load the gas global, add the per-site cost
(`I32Add`, 32-bit wrap-around), tee the sum into the gas scratch local,
compare it (signed) with `GAS_LIMIT`, execute `unreachable` if it is
greater, and otherwise commit the scratch value to the gas global.
Returns `none` on the trap, otherwise `some` of the committed gas value
and the scratch local's value. -/
def meter_gas (gas cost : Int) : Option (Int × Int) :=
  let t := sWrap32 (gas + cost)
  if t > GAS_LIMIT then none
  else some (t, t)

end WasmCodegen

/-- The gas-metering sites emitted by the code generator, with their
costs: 10 at function entry, 1 at the top of each `while` and `for`
iteration, and element-count-proportional costs at list and dict literal
construction (`python_compiler.rs`: `items.len() * 2`, `pairs.len() * 4`). -/
inductive GasSite where
  | entry
  | whileIter
  | forIter
  | listLit (elems : Nat)
  | dictLit (pairs : Nat)

/-- Per-site metering cost. -/
def siteCost : GasSite → Int
  | GasSite.entry => 10
  | GasSite.whileIter => 1
  | GasSite.forIter => 1
  | GasSite.listLit n => (n : Int) * 2
  | GasSite.dictLit n => (n : Int) * 4

/-- Values of the gas global reachable in an execution of an emitted
module: the global is initialized to 0, and the only instruction that
writes it is the commit in `meter_gas`, executed at the metering sites. -/
inductive gasReachable : Int → Prop where
  | zero : gasReachable 0
  | step (g g' sc : Int) (site : GasSite) : gasReachable g →
      WasmCodegen.meter_gas g (siteCost site) = some (g', sc) → gasReachable g'

/-- C4: in every reachable execution state of an emitted module the gas
global never exceeds `GAS_LIMIT`: every metering site computes the new
gas value into the gas scratch local (the function's last reserved
scratch slot), traps via `unreachable` when it exceeds the limit, and
only otherwise commits it to the global. -/
theorem C4_gas_never_exceeds_limit :
    (∀ g, gasReachable g → g ≤ GAS_LIMIT)
    ∧ (∀ g cost t sc, WasmCodegen.meter_gas g cost = some (t, sc) →
        sc = t ∧ t = sWrap32 (g + cost) ∧ t ≤ GAS_LIMIT)
    ∧ (∀ g cost, sWrap32 (g + cost) > GAS_LIMIT →
        WasmCodegen.meter_gas g cost = none)
    ∧ (∀ f : IRFunction, WasmCodegen.gas_temp_local f = f.locals.length + f.tempLocals - 1) := by
  have hsome : ∀ g cost t sc, WasmCodegen.meter_gas g cost = some (t, sc) →
      sc = t ∧ t = sWrap32 (g + cost) ∧ t ≤ GAS_LIMIT := by
    intro g cost t sc h
    unfold WasmCodegen.meter_gas at h
    by_cases hgt : sWrap32 (g + cost) > GAS_LIMIT
    · rw [if_pos hgt] at h
      exact absurd h (by simp)
    · rw [if_neg hgt] at h
      injection h with h2
      injection h2 with ha hb
      exact ⟨hb ▸ ha ▸ rfl, ha ▸ rfl, ha ▸ (by omega)⟩
  refine ⟨?_, hsome, ?_, fun _ => rfl⟩
  · intro g hg
    induction hg with
    | zero => unfold GAS_LIMIT; omega
    | step g g' sc site _ hmg _ => exact (hsome g (siteCost site) g' sc hmg).2.2
  · intro g cost hgt
    unfold WasmCodegen.meter_gas
    rw [if_pos hgt]

theorem C4_witness : (10 : Int) ≤ GAS_LIMIT ∧ WasmCodegen.meter_gas 0 10 = some (10, 10) :=
  ⟨C4_gas_never_exceeds_limit.1 10
    (gasReachable.step 0 10 10 GasSite.entry gasReachable.zero (by decide)),
   by decide⟩

/-- C2 (counterexample): `generate` emits two exports, not one — the
imported memory is re-exported under the name `"memory"`. -/
theorem C2_counterexample :
    (WasmCodegen.generate [⟨"main", [], [], [], 1, []⟩]).exports ≠
      [⟨"main", ExportKind.func, 0⟩]
    ∧ (⟨"memory", ExportKind.memory, 0⟩ : ExportEntry) ∈
      (WasmCodegen.generate [⟨"main", [], [], [], 1, []⟩]).exports := by
  constructor
  · intro h
    simp [WasmCodegen.generate] at h
  · simp [WasmCodegen.generate]

/-- C2 (amended): for every IR module the emitted export section has
exactly two entries — `main` bound to function index 0, and the imported
memory re-exported under the name `memory` at memory index 0. -/
theorem C2_exports (functions : List IRFunction) :
    (WasmCodegen.generate functions).exports =
      [⟨"main", ExportKind.func, 0⟩, ⟨"memory", ExportKind.memory, 0⟩]
    ∧ ((WasmCodegen.generate functions).exports).length = 2 := ⟨rfl, rfl⟩

/-! ## Module validation (`stylus-executor/src/lib.rs`,
`python-verifier/src/lib.rs`) -/

/-- Error kinds of the stylus executor (`enum ExecutionError`, the
variants used by validation). -/
inductive ExecutionError where
  | ModuleTooLarge
  | InvalidWasmMagic
  | InvalidWasmVersion
  | FloatOpcodeDetected
  | WasiImportDetected
  | ThreadOpcodeDetected
deriving DecidableEq, Repr

/-- `contains_pattern`: scan every window of `data` for `pattern`. -/
def contains_pattern (data pattern : List Nat) : Bool :=
  if pattern.length > data.length then false
  else (List.range (data.length - pattern.length + 1)).any
    (fun i => decide ((data.drop i).take pattern.length = pattern))

/-- The bytes of `b"wasi_snapshot"`. -/
def wasiPattern : List Nat :=
  [0x77, 0x61, 0x73, 0x69, 0x5F, 0x73, 0x6E, 0x61, 0x70, 0x73, 0x68, 0x6F, 0x74]

/-- A byte in the rejected floating-point opcode range
`0x43..=0x98 | 0x99..=0xBF`. -/
def floatByte (b : Nat) : Bool :=
  decide ((0x43 ≤ b ∧ b ≤ 0x98) ∨ (0x99 ≤ b ∧ b ≤ 0xBF))

/-- `validate_determinism` of the stylus executor. -/
def validate_determinism (wasm : List Nat) : Except ExecutionError Unit :=
  if wasm.length < 8 then Except.error ExecutionError.InvalidWasmMagic
  else if wasm.take 4 ≠ [0x00, 0x61, 0x73, 0x6D] then
    Except.error ExecutionError.InvalidWasmMagic
  else if (wasm.drop 4).take 4 ≠ [1, 0, 0, 0] then
    Except.error ExecutionError.InvalidWasmVersion
  else if (wasm.drop 8).any floatByte then
    Except.error ExecutionError.FloatOpcodeDetected
  else if contains_pattern wasm wasiPattern then
    Except.error ExecutionError.WasiImportDetected
  else if (wasm.drop 8).any (fun b => decide (b = 0xFE)) then
    Except.error ExecutionError.ThreadOpcodeDetected
  else Except.ok ()

/-- The validation prefix of `CertusStylusExecutor::execute`: the
`MAX_MODULE_SIZE` gate (24 KiB) followed by `validate_determinism`. -/
def stylusValidate (wasm : List Nat) : Except ExecutionError Unit :=
  if wasm.length > 24 * 1024 then Except.error ExecutionError.ModuleTooLarge
  else validate_determinism wasm

/-- Error kinds of `PythonExecutor::validate_wasm` (the source raises
`anyhow` string errors; only the kind matters here). -/
inductive VwErr where
  | sizeErr
  | magicErr
  | floatErr
deriving DecidableEq, Repr

/-- `PythonExecutor::validate_wasm` (`python-verifier/src/lib.rs`): size
gate, magic check, and a float-opcode scan after the 8-byte header — it
checks neither the version bytes nor `0xFE` bytes. -/
def validate_wasm (wasm : List Nat) : Except VwErr Unit :=
  if wasm.length > 24 * 1024 then Except.error VwErr.sizeErr
  else if wasm.length < 8 ∨ wasm.take 4 ≠ [0x00, 0x61, 0x73, 0x6D] then
    Except.error VwErr.magicErr
  else if (wasm.drop 8).any floatByte then Except.error VwErr.floatErr
  else Except.ok ()

/-- C3 (counterexample): the python-verifier's module validation accepts
a module with a `0xFE` byte after the header, and one whose version bytes
are not `{1,0,0,0}` — both of which the claim says validation must
reject.  (The stylus validator rejects both.) -/
theorem C3_counterexample :
    validate_wasm [0x00, 0x61, 0x73, 0x6D, 1, 0, 0, 0, 0xFE] = Except.ok ()
    ∧ (0xFE : Nat) ∈ ([0x00, 0x61, 0x73, 0x6D, 1, 0, 0, 0, 0xFE] : List Nat).drop 8
    ∧ validate_wasm [0x00, 0x61, 0x73, 0x6D, 9, 0, 0, 0] = Except.ok ()
    ∧ ([0x00, 0x61, 0x73, 0x6D, 9, 0, 0, 0] : List Nat).drop 4 ≠ [1, 0, 0, 0]
    ∧ validate_determinism [0x00, 0x61, 0x73, 0x6D, 1, 0, 0, 0, 0xFE] =
        Except.error ExecutionError.ThreadOpcodeDetected
    ∧ validate_determinism [0x00, 0x61, 0x73, 0x6D, 9, 0, 0, 0] =
        Except.error ExecutionError.InvalidWasmVersion := by
  refine ⟨rfl, by decide, rfl, by decide, rfl, rfl⟩

/-- C3 (amended): the stylus validation path (24 KiB gate +
`validate_determinism`) accepts a module only if it is at most 24 KiB,
starts with the Wasm magic and version `{1,0,0,0}`, has no byte in
`[0x43..0xBF]` and no `0xFE` byte after the 8-byte header, and does not
contain the substring `wasi_snapshot`; the python-verifier's
`validate_wasm` enforces only the size bound, the magic, and the
float-opcode scan. -/
theorem C3_validator_completeness (wasm : List Nat) :
    (stylusValidate wasm = Except.ok () →
      wasm.length ≤ 24 * 1024 ∧ 8 ≤ wasm.length
      ∧ wasm.take 4 = [0x00, 0x61, 0x73, 0x6D]
      ∧ (wasm.drop 4).take 4 = [1, 0, 0, 0]
      ∧ (∀ b ∈ wasm.drop 8, ¬(0x43 ≤ b ∧ b ≤ 0xBF))
      ∧ contains_pattern wasm wasiPattern = false
      ∧ (0xFE : Nat) ∉ wasm.drop 8)
    ∧ (validate_wasm wasm = Except.ok () →
      wasm.length ≤ 24 * 1024 ∧ 8 ≤ wasm.length
      ∧ wasm.take 4 = [0x00, 0x61, 0x73, 0x6D]
      ∧ (∀ b ∈ wasm.drop 8, ¬(0x43 ≤ b ∧ b ≤ 0xBF))) := by
  have hfloat : ((wasm.drop 8).any floatByte = false) →
      ∀ b ∈ wasm.drop 8, ¬(0x43 ≤ b ∧ b ≤ 0xBF) := by
    intro hany b hb hrange
    have := List.any_eq_false.mp hany b hb
    unfold floatByte at this
    simp only [decide_eq_true_eq] at this
    omega
  constructor
  · intro h
    unfold stylusValidate validate_determinism at h
    by_cases h1 : wasm.length > 24 * 1024
    · rw [if_pos h1] at h; exact absurd h (by simp)
    rw [if_neg h1] at h
    by_cases h2 : wasm.length < 8
    · rw [if_pos h2] at h; exact absurd h (by simp)
    rw [if_neg h2] at h
    by_cases h3 : wasm.take 4 ≠ [0x00, 0x61, 0x73, 0x6D]
    · rw [if_pos h3] at h; exact absurd h (by simp)
    rw [if_neg h3] at h
    by_cases h4 : (wasm.drop 4).take 4 ≠ [1, 0, 0, 0]
    · rw [if_pos h4] at h; exact absurd h (by simp)
    rw [if_neg h4] at h
    by_cases h5 : (wasm.drop 8).any floatByte
    · rw [if_pos h5] at h; exact absurd h (by simp)
    rw [if_neg h5] at h
    by_cases h6 : contains_pattern wasm wasiPattern
    · rw [if_pos h6] at h; exact absurd h (by simp)
    rw [if_neg h6] at h
    by_cases h7 : (wasm.drop 8).any (fun b => decide (b = 0xFE))
    · rw [if_pos h7] at h; exact absurd h (by simp)
    refine ⟨by omega, by omega, not_not.mp h3, not_not.mp h4,
      hfloat (Bool.not_eq_true _ ▸ h5), Bool.not_eq_true _ ▸ h6, ?_⟩
    intro hmem
    exact h7 (List.any_eq_true.mpr ⟨0xFE, hmem, by decide⟩)
  · intro h
    unfold validate_wasm at h
    by_cases h1 : wasm.length > 24 * 1024
    · rw [if_pos h1] at h; exact absurd h (by simp)
    rw [if_neg h1] at h
    by_cases h2 : wasm.length < 8 ∨ wasm.take 4 ≠ [0x00, 0x61, 0x73, 0x6D]
    · rw [if_pos h2] at h; exact absurd h (by simp)
    rw [if_neg h2] at h
    by_cases h5 : (wasm.drop 8).any floatByte
    · rw [if_pos h5] at h; exact absurd h (by simp)
    push_neg at h2
    exact ⟨by omega, by omega, h2.2, hfloat (Bool.not_eq_true _ ▸ h5)⟩

theorem C3_witness :
    ([0x00, 0x61, 0x73, 0x6D, 1, 0, 0, 0, 0x00] : List Nat).take 4 = [0x00, 0x61, 0x73, 0x6D]
    ∧ contains_pattern [0x00, 0x61, 0x73, 0x6D, 1, 0, 0, 0, 0x00] wasiPattern = false :=
  have h := (C3_validator_completeness [0x00, 0x61, 0x73, 0x6D, 1, 0, 0, 0, 0x00]).1 rfl
  ⟨h.2.2.1, h.2.2.2.2.2.1⟩


/-! ## Floor division (`codegen.rs` / `python_compiler.rs`,
`BinOp::FloorDiv`) -/

theorem toU32_lt (z : Int) : toU32 z < 4294967296 := by
  unfold toU32
  have h1 : (0 : Int) ≤ z % 4294967296 := Int.emod_nonneg z (by decide)
  have h2 : z % 4294967296 < 4294967296 := Int.emod_lt_of_pos z (by decide)
  omega

theorem toS32_neg_iff {n : Nat} (hn : n < 4294967296) :
    toS32 n < 0 ↔ 2147483648 ≤ n := by
  unfold toS32
  split <;> omega

theorem testBit31_iff {n : Nat} (hn : n < 4294967296) :
    n.testBit 31 = true ↔ 2147483648 ≤ n := by
  rw [Nat.testBit_to_div_mod]
  simp only [decide_eq_true_eq]
  omega

theorem toU32_ge_iff {z : Int} (h1 : -2147483648 ≤ z) (h2 : z < 2147483648) :
    2147483648 ≤ toU32 z ↔ z < 0 := by
  unfold toU32
  omega

/-- The emitted sign test `(r XOR b) < 0` (signed) detects exactly that
`r` and `b` have opposite signs. -/
theorem xor_sign (r b : Int) (hr1 : -2147483648 ≤ r) (hr2 : r < 2147483648)
    (hb1 : -2147483648 ≤ b) (hb2 : b < 2147483648) :
    (toS32 (toU32 r ^^^ toU32 b) < 0) ↔ ¬(r < 0 ↔ b < 0) := by
  have hxlt : toU32 r ^^^ toU32 b < 4294967296 := by
    have h := @Nat.xor_lt_two_pow (toU32 r) (toU32 b) 32
      (by have := toU32_lt r; norm_num; omega) (by have := toU32_lt b; norm_num; omega)
    calc toU32 r ^^^ toU32 b < 2 ^ 32 := h
      _ = 4294967296 := by norm_num
  have hr31 : (toU32 r).testBit 31 = true ↔ r < 0 :=
    (testBit31_iff (toU32_lt r)).trans (toU32_ge_iff hr1 hr2)
  have hb31 : (toU32 b).testBit 31 = true ↔ b < 0 :=
    (testBit31_iff (toU32_lt b)).trans (toU32_ge_iff hb1 hb2)
  rw [toS32_neg_iff hxlt, ← testBit31_iff hxlt, Nat.testBit_xor]
  cases hxr : (toU32 r).testBit 31 <;> cases hxb : (toU32 b).testBit 31 <;>
    simp_all <;> omega

/-- Python floor division, expressed as the emitted code computes it: the
truncating quotient, decremented by one exactly when the truncating
remainder is non-zero and has a sign different from the divisor's. -/
theorem fdiv_eq_tdiv_correction (a b : Int) (hb : b ≠ 0) :
    Int.fdiv a b =
      Int.tdiv a b -
        (if Int.tmod a b ≠ 0 ∧ ¬(Int.tmod a b < 0 ↔ b < 0) then 1 else 0) := by
  rcases a with (_ | m) | m <;> rcases b with (_ | n) | n
  · exact absurd rfl hb
  · rw [if_neg (by simp)]
    simp
  · rw [if_neg (by simp)]
    simp
  · exact absurd rfl hb
  · -- a = ofNat (m+1), b = ofNat (n+1): both nonnegative
    rw [if_neg]
    · have h0 : (0 : Int) ≤ Int.ofNat (m + 1) := Int.ofNat_nonneg _
      have h1 : (0 : Int) ≤ Int.ofNat (n + 1) := Int.ofNat_nonneg _
      rw [Int.fdiv_eq_ediv _ h1, Int.tdiv_eq_ediv h0 h1]
      omega
    · rintro ⟨_, h2⟩
      apply h2
      have hmod : Int.tmod (Int.ofNat (m + 1)) (Int.ofNat (n + 1)) =
          Int.ofNat ((m + 1) % (n + 1)) := rfl
      rw [hmod]
      simp only [Int.ofNat_eq_natCast]
      constructor <;> intro h <;> omega
  · -- a = ofNat (m+1), b = negSucc n
    have hmod : Int.tmod (Int.ofNat (m + 1)) (Int.negSucc n) =
        Int.ofNat ((m + 1) % (n + 1)) := rfl
    have hdiv : Int.tdiv (Int.ofNat (m + 1)) (Int.negSucc n) =
        -Int.ofNat ((m + 1) / (n + 1)) := rfl
    have hf : Int.fdiv (Int.ofNat (m + 1)) (Int.negSucc n) =
        Int.negSucc (m / (n + 1)) := rfl
    rw [hmod, hdiv, hf]
    have hsucc := Nat.succ_div m (n + 1)
    by_cases hd : (n + 1) ∣ (m + 1)
    · have hr0 : (m + 1) % (n + 1) = 0 := Nat.mod_eq_zero_of_dvd hd
      rw [if_pos hd] at hsucc
      rw [if_neg]
      · simp only [Int.negSucc_eq, Int.ofNat_eq_natCast]
        omega
      · rintro ⟨h1, _⟩
        apply h1
        rw [hr0]
        rfl
    · have hr0 : (m + 1) % (n + 1) ≠ 0 := fun h => hd (Nat.dvd_of_mod_eq_zero h)
      rw [if_neg hd] at hsucc
      rw [if_pos]
      · simp only [Int.negSucc_eq, Int.ofNat_eq_natCast]
        omega
      · refine ⟨by simp only [Int.ofNat_eq_natCast]; omega, fun hiff => ?_⟩
        have hcontra := hiff.mpr (Int.negSucc_lt_zero n)
        simp only [Int.ofNat_eq_natCast] at hcontra
        omega
  · exact absurd rfl hb
  · -- a = negSucc m, b = ofNat (n+1)
    have hmod : Int.tmod (Int.negSucc m) (Int.ofNat (n + 1)) =
        -Int.ofNat ((m + 1) % (n + 1)) := rfl
    have hdiv : Int.tdiv (Int.negSucc m) (Int.ofNat (n + 1)) =
        -Int.ofNat ((m + 1) / (n + 1)) := rfl
    have hf : Int.fdiv (Int.negSucc m) (Int.ofNat (n + 1)) =
        Int.negSucc (m / (n + 1)) := rfl
    rw [hmod, hdiv, hf]
    have hsucc := Nat.succ_div m (n + 1)
    by_cases hd : (n + 1) ∣ (m + 1)
    · have hr0 : (m + 1) % (n + 1) = 0 := Nat.mod_eq_zero_of_dvd hd
      rw [if_pos hd] at hsucc
      rw [if_neg]
      · simp only [Int.negSucc_eq, Int.ofNat_eq_natCast]
        omega
      · rintro ⟨h1, _⟩
        apply h1
        rw [hr0]
        simp
    · have hr0 : (m + 1) % (n + 1) ≠ 0 := fun h => hd (Nat.dvd_of_mod_eq_zero h)
      rw [if_neg hd] at hsucc
      rw [if_pos]
      · simp only [Int.negSucc_eq, Int.ofNat_eq_natCast]
        omega
      · refine ⟨?_, fun hiff => ?_⟩
        · simp only [Int.ofNat_eq_natCast]
          omega
        · have h2 := hiff.mp (by simp only [Int.ofNat_eq_natCast]; omega)
          simp only [Int.ofNat_eq_natCast] at h2
          omega
  · -- a = negSucc m, b = negSucc n
    have hmod : Int.tmod (Int.negSucc m) (Int.negSucc n) =
        -Int.ofNat ((m + 1) % (n + 1)) := rfl
    have hdiv : Int.tdiv (Int.negSucc m) (Int.negSucc n) =
        Int.ofNat ((m + 1) / (n + 1)) := rfl
    have hf : Int.fdiv (Int.negSucc m) (Int.negSucc n) =
        Int.ofNat ((m + 1) / (n + 1)) := rfl
    rw [hmod, hdiv, hf]
    rw [if_neg]
    · omega
    · rintro ⟨h1, h2⟩
      by_cases hr : (m + 1) % (n + 1) = 0
      · apply h1
        rw [hr]
        simp
      · refine h2 ⟨fun _ => Int.negSucc_lt_zero n, fun _ => ?_⟩
        simp only [Int.ofNat_eq_natCast]
        omega

theorem sWrap32_eq_self {z : Int} (h1 : -2147483648 ≤ z) (h2 : z < 2147483648) :
    sWrap32 z = z := by
  unfold sWrap32 toS32 toU32
  split <;> omega

/-- The truncating remainder of two in-range i32 values is in range. -/
theorem tmod_range (a b : Int) (ha1 : -2147483648 ≤ a) (ha2 : a < 2147483648) :
    -2147483648 ≤ Int.tmod a b ∧ Int.tmod a b < 2147483648 := by
  rcases a with m | m <;> rcases b with n | n
  · have h : Int.tmod (Int.ofNat m) (Int.ofNat n) = Int.ofNat (m % n) := rfl
    have hle : m % n ≤ m := Nat.mod_le m n
    rw [h]
    simp only [Int.ofNat_eq_natCast] at *
    omega
  · have h : Int.tmod (Int.ofNat m) (Int.negSucc n) = Int.ofNat (m % (n + 1)) := rfl
    have hle : m % (n + 1) ≤ m := Nat.mod_le m (n + 1)
    rw [h]
    simp only [Int.ofNat_eq_natCast] at *
    omega
  · have h : Int.tmod (Int.negSucc m) (Int.ofNat n) = -Int.ofNat ((m + 1) % n) := rfl
    have hle : (m + 1) % n ≤ m + 1 := Nat.mod_le (m + 1) n
    rw [h]
    simp only [Int.negSucc_eq, Int.ofNat_eq_natCast] at *
    omega
  · have h : Int.tmod (Int.negSucc m) (Int.negSucc n) = -Int.ofNat ((m + 1) % (n + 1)) := rfl
    have hle : (m + 1) % (n + 1) ≤ m + 1 := Nat.mod_le (m + 1) (n + 1)
    rw [h]
    simp only [Int.negSucc_eq, Int.ofNat_eq_natCast] at *
    omega

/-- Python floor division of in-range i32 values is in range, except on
the excluded overflow pair. -/
theorem fdiv_range (a b : Int) (ha1 : -2147483648 ≤ a) (ha2 : a < 2147483648)
    (hb0 : b ≠ 0) (hmin : ¬(a = -2147483648 ∧ b = -1)) :
    -2147483648 ≤ Int.fdiv a b ∧ Int.fdiv a b < 2147483648 := by
  rcases a with (_ | m) | m <;> rcases b with (_ | n) | n
  · exact absurd rfl hb0
  · simp
  · simp
  · exact absurd rfl hb0
  · have h : Int.fdiv (Int.ofNat (m + 1)) (Int.ofNat (n + 1)) =
        Int.ofNat ((m + 1) / (n + 1)) := rfl
    have hle : (m + 1) / (n + 1) ≤ m + 1 := Nat.div_le_self _ _
    have hnn : (0 : Int) ≤ (((m + 1) / (n + 1) : Nat) : Int) := Int.natCast_nonneg _
    rw [h]
    simp only [Int.ofNat_eq_natCast] at *
    omega
  · have h : Int.fdiv (Int.ofNat (m + 1)) (Int.negSucc n) =
        Int.negSucc (m / (n + 1)) := rfl
    have hle : m / (n + 1) ≤ m := Nat.div_le_self _ _
    have hnn : (0 : Int) ≤ ((m / (n + 1) : Nat) : Int) := Int.natCast_nonneg _
    rw [h]
    simp only [Int.negSucc_eq, Int.ofNat_eq_natCast] at *
    omega
  · exact absurd rfl hb0
  · have h : Int.fdiv (Int.negSucc m) (Int.ofNat (n + 1)) =
        Int.negSucc (m / (n + 1)) := rfl
    have hle : m / (n + 1) ≤ m := Nat.div_le_self _ _
    have hnn : (0 : Int) ≤ ((m / (n + 1) : Nat) : Int) := Int.natCast_nonneg _
    rw [h]
    simp only [Int.negSucc_eq, Int.ofNat_eq_natCast] at *
    omega
  · have h : Int.fdiv (Int.negSucc m) (Int.negSucc n) =
        Int.ofNat ((m + 1) / (n + 1)) := rfl
    have hle : (m + 1) / (n + 1) ≤ m + 1 := Nat.div_le_self _ _
    rw [h]
    have hm1 : m + 1 ≤ 2147483648 := by
      simp only [Int.negSucc_eq, Int.ofNat_eq_natCast] at ha1
      omega
    rcases n with _ | n'
    · have hne : Int.negSucc m ≠ -2147483648 := fun hc => hmin ⟨hc, rfl⟩
      have hm2 : m + 1 < 2147483648 := by
        rcases Nat.lt_or_ge (m + 1) 2147483648 with h' | h'
        · exact h'
        · exact absurd (by simp only [Int.negSucc_eq]; omega : Int.negSucc m = -2147483648) hne
      have hnn : (0 : Int) ≤ (((m + 1) / 1 : Nat) : Int) := Int.natCast_nonneg _
      simp only [Int.ofNat_eq_natCast]
      omega
    · have h2 : (m + 1) / (n' + 1 + 1) ≤ (m + 1) / 2 :=
        Nat.div_le_div_left (by omega) (by omega)
      have h3 : (m + 1) / 2 ≤ 1073741824 := by omega
      have hnn : (0 : Int) ≤ (((m + 1) / (n' + 1 + 1) : Nat) : Int) := Int.natCast_nonneg _
      simp only [Int.ofNat_eq_natCast]
      omega

/-- Semantics of the `BinOp::FloorDiv` instruction sequence emitted by
`generate_expr` (identical in `codegen.rs` and `python_compiler.rs`).
With the operands spilled to scratch locals (`a` left, `b` right): trap
(`unreachable`) when `b = 0`; `I32DivS` — which itself traps on the
overflow pair `(i32::MIN, -1)`; `I32RemS` into a scratch; decrement the
quotient (`I32Sub`, wrapping) exactly when the remainder is non-zero
(`I32Ne`) and `rem XOR b` is negative (`I32Xor`, `I32LtS`).  `none` is a
trap. -/
def floorDivRun (a b : Int) : Option Int :=
  if b = 0 then none
  else if a = -2147483648 ∧ b = -1 then none
  else
    let q := Int.tdiv a b
    let r := Int.tmod a b
    if r ≠ 0 ∧ toS32 (toU32 r ^^^ toU32 b) < 0 then some (sWrap32 (q - 1))
    else some q

/-- C7 (counterexample): on the operands `(i32::MIN, -1)` the emitted
FloorDiv sequence traps (the `I32DivS` overflow trap) even though the
divisor is non-zero, where the claim promises the Python floor-division
value. -/
theorem C7_counterexample :
    floorDivRun (-2147483648) (-1) = none ∧ ((-1 : Int) ≠ 0) := by
  constructor
  · unfold floorDivRun
    rw [if_neg (by decide), if_pos (by constructor <;> rfl)]
  · decide

/-- C7 (amended): the emitted FloorDiv code traps when the divisor is 0
(via `unreachable`) and on the overflow pair `(i32::MIN, -1)` (the
`I32DivS` trap); for every other pair of in-range operands it yields
Python floor division — the truncating quotient decremented by 1 exactly
when the operands' signs differ and the truncating remainder is non-zero
— and in particular `(-10) // 3 = -4`. -/
theorem C7_floordiv (a b : Int)
    (ha1 : -2147483648 ≤ a) (ha2 : a < 2147483648)
    (hb1 : -2147483648 ≤ b) (hb2 : b < 2147483648) :
    (b = 0 → floorDivRun a b = none)
    ∧ (a = -2147483648 ∧ b = -1 → floorDivRun a b = none)
    ∧ (b ≠ 0 → ¬(a = -2147483648 ∧ b = -1) →
        floorDivRun a b = some (Int.fdiv a b))
    ∧ floorDivRun (-10) 3 = some (-4) := by
  refine ⟨?_, ?_, ?_, by decide⟩
  · intro hb0
    unfold floorDivRun
    rw [if_pos hb0]
  · intro hmin
    unfold floorDivRun
    by_cases hb0 : b = 0
    · rw [if_pos hb0]
    · rw [if_neg hb0, if_pos hmin]
  · intro hb0 hmin
    unfold floorDivRun
    rw [if_neg hb0, if_neg hmin]
    have hrr := tmod_range a b ha1 ha2
    have hx := xor_sign (Int.tmod a b) b hrr.1 hrr.2 hb1 hb2
    have hcorr := fdiv_eq_tdiv_correction a b hb0
    by_cases hc : Int.tmod a b ≠ 0 ∧ toS32 (toU32 (Int.tmod a b) ^^^ toU32 b) < 0
    · rw [if_pos hc]
      rw [if_pos ⟨hc.1, hx.mp hc.2⟩] at hcorr
      have hfr := fdiv_range a b ha1 ha2 hb0 hmin
      have hself : sWrap32 (Int.tdiv a b - 1) = Int.tdiv a b - 1 :=
        sWrap32_eq_self (by omega) (by omega)
      rw [hself, hcorr]
    · rw [if_neg hc]
      rw [if_neg (fun hh => hc ⟨hh.1, hx.mpr hh.2⟩)] at hcorr
      rw [hcorr]
      simp

theorem C7_witness :
    floorDivRun (-10) 3 = some (Int.fdiv (-10) 3) ∧ Int.fdiv (-10) 3 = -4 :=
  ⟨(C7_floordiv (-10) 3 (by decide) (by decide) (by decide) (by decide)).2.2.1
    (by decide) (by decide), by decide⟩

/-! ## Emitted heap snippets (`python-verifier/src/compiler/memory.rs`)

The emitted string routines operate on the Wasm linear memory and the
heap bump pointer (global 1).  Memory is a byte store `Nat → Nat`; the
emitted `Block`/`Loop`/`BrIf` loops (byte copies and byte comparisons)
become structural recursion on the remaining iteration count. -/

/-- Linear memory as a byte store. -/
def Mem : Type := Nat → Nat

/-- `i32.store8`: the stored value is masked to a byte. -/
def store8 (m : Mem) (a v : Nat) : Mem := fun x => if x = a then v % 256 else m x

/-- `i32.load8_u`. -/
def load8 (m : Mem) (a : Nat) : Nat := m a

/-- Little-endian 32-bit load (`i32.load`). -/
def load32 (m : Mem) (a : Nat) : Nat :=
  m a + 256 * m (a + 1) + 65536 * m (a + 2) + 16777216 * m (a + 3)

/-- Little-endian 32-bit store (`i32.store`). -/
def store32 (m : Mem) (a v : Nat) : Mem :=
  store8 (store8 (store8 (store8 m a v) (a + 1) (v / 256)) (a + 2) (v / 65536))
    (a + 3) (v / 16777216)

/-- Read `n` consecutive bytes starting at `a`. -/
def readBytes (m : Mem) (a : Nat) : Nat → List Nat
  | 0 => []
  | n + 1 => m a :: readBytes m (a + 1) n

/-- Write a list of bytes starting at `a`. -/
def writeBytes (m : Mem) (a : Nat) : List Nat → Mem
  | [] => m
  | b :: bs => writeBytes (store8 m a b) (a + 1) bs

/-- The heap state: linear memory plus the bump pointer (global 1). -/
structure Heap where
  mem : Mem
  hp : Nat

/-- The immutable heap limit (global 2). -/
def HEAP_LIMIT : Nat := 0x400000

/-- Every memory cell holds a byte. -/
def byteMem (m : Mem) : Prop := ∀ x, m x < 256

/-- A STRING object at `p`: tag 3 at offset 0, byte length at offset 4,
payload bytes from offset 8. -/
def strObj (m : Mem) (p : Nat) (bs : List Nat) : Prop :=
  load32 m p = 3 ∧ load32 m (p + 4) = bs.length ∧ readBytes m (p + 8) bs.length = bs

/-- A BYTES object at `p` (tag 4, otherwise the STRING layout). -/
def bytesObj (m : Mem) (p : Nat) (bs : List Nat) : Prop :=
  load32 m p = 4 ∧ load32 m (p + 4) = bs.length ∧ readBytes m (p + 8) bs.length = bs

/-- The aligned allocation size `(len + 8 + 3) & -4` computed by the
emitted string routines (`-4` as a 32-bit word is `0xFFFFFFFC`). -/
def alignSize (len : Nat) : Nat := wrapU (len + 8 + 3) &&& 0xFFFFFFFC

/-- `I32Sub` on 32-bit words. -/
def sub32 (a b : Nat) : Nat := wrapU (a + 4294967296 - b)

/-- The emitted byte-copy loop shared by `concat`, `slice` and
`from_string`: while the counter is below the remaining count, store the
byte loaded from `src + counter` at `dst + counter` and increment. -/
def copyLoop (dst src : Nat) : Nat → Nat → Mem → Mem
  | 0, _, m => m
  | k + 1, c, m => copyLoop dst src k (c + 1) (store8 m (dst + c) (load8 m (src + c)))

theorem store8_same (m : Mem) (a v : Nat) : store8 m a v a = v % 256 := by
  unfold store8
  rw [if_pos rfl]

theorem store8_other (m : Mem) (a v x : Nat) (h : x ≠ a) : store8 m a v x = m x := by
  unfold store8
  rw [if_neg h]

theorem store8_byteMem {m : Mem} (hm : byteMem m) (a v : Nat) : byteMem (store8 m a v) := by
  intro x
  unfold store8
  split
  · omega
  · exact hm x

theorem store32_byteMem {m : Mem} (hm : byteMem m) (a v : Nat) : byteMem (store32 m a v) :=
  store8_byteMem (store8_byteMem (store8_byteMem (store8_byteMem hm _ _) _ _) _ _) _ _

theorem store32_outside (m : Mem) (a v x : Nat) (h : x < a ∨ a + 4 ≤ x) :
    store32 m a v x = m x := by
  unfold store32
  rw [store8_other _ _ _ _ (by omega), store8_other _ _ _ _ (by omega),
    store8_other _ _ _ _ (by omega), store8_other _ _ _ _ (by omega)]

theorem load32_store32 (m : Mem) (a v : Nat) (hv : v < 4294967296) :
    load32 (store32 m a v) a = v := by
  unfold load32 store32
  rw [store8_same]
  rw [store8_other _ _ _ _ (by omega), store8_other _ _ _ _ (by omega),
    store8_other _ _ _ _ (by omega)]
  rw [store8_same]
  rw [store8_other _ _ _ _ (by omega), store8_other _ _ _ _ (by omega)]
  rw [store8_same]
  rw [store8_other _ _ _ _ (by omega)]
  rw [store8_same]
  omega

theorem copyLoop_outside (dst src : Nat) :
    ∀ (k c : Nat) (m : Mem) (x : Nat), (x < dst + c ∨ dst + c + k ≤ x) →
      copyLoop dst src k c m x = m x := by
  intro k
  induction k with
  | zero => intro c m x _; rfl
  | succ k ih =>
    intro c m x hx
    unfold copyLoop
    rw [ih (c + 1) _ x (by omega)]
    exact store8_other _ _ _ _ (by omega)

theorem copyLoop_byteMem (dst src : Nat) :
    ∀ (k c : Nat) (m : Mem), byteMem m → byteMem (copyLoop dst src k c m) := by
  intro k
  induction k with
  | zero => intro c m hm; exact hm
  | succ k ih => intro c m hm; exact ih (c + 1) _ (store8_byteMem hm _ _)

theorem copyLoop_read (dst src : Nat) :
    ∀ (k c : Nat) (m : Mem), src + k ≤ dst →
      ∀ j, j < k → copyLoop dst src k c m (dst + c + j) = m (src + c + j) % 256 := by
  intro k
  induction k with
  | zero => intro c m _ j hj; omega
  | succ k ih =>
    intro c m hd j hj
    unfold copyLoop
    rcases Nat.eq_zero_or_pos j with hj0 | hjpos
    · subst hj0
      simp only [Nat.add_zero]
      rw [copyLoop_outside dst src k (c + 1) _ (dst + c) (by omega)]
      rw [store8_same]
      rfl
    · obtain ⟨j', rfl⟩ : ∃ j', j = j' + 1 := ⟨j - 1, by omega⟩
      have h1 : dst + c + (j' + 1) = dst + (c + 1) + j' := by omega
      have h2 : src + c + (j' + 1) = src + (c + 1) + j' := by omega
      rw [h1, ih (c + 1) _ (by omega) j' (by omega), h2,
        store8_other _ _ _ _ (by omega)]

theorem readBytes_agree (m1 m2 : Mem) :
    ∀ (n a : Nat), (∀ i, i < n → m1 (a + i) = m2 (a + i)) →
      readBytes m1 a n = readBytes m2 a n := by
  intro n
  induction n with
  | zero => intro a _; rfl
  | succ n ih =>
    intro a h
    unfold readBytes
    have hh : m1 a = m2 a := by simpa using h 0 (by omega)
    have ht : readBytes m1 (a + 1) n = readBytes m2 (a + 1) n :=
      ih (a + 1) fun i hi => by
        have h2 := h (i + 1) (by omega)
        have e : a + (i + 1) = a + 1 + i := by omega
        rw [e] at h2
        exact h2
    rw [hh, ht]

theorem readBytes_getD (m : Mem) :
    ∀ (n a : Nat) (bs : List Nat), readBytes m a n = bs →
      ∀ i, i < n → m (a + i) = bs.getD i 0 := by
  intro n
  induction n with
  | zero => intro a bs _ i hi; omega
  | succ n ih =>
    intro a bs hbs i hi
    unfold readBytes at hbs
    subst hbs
    rcases Nat.eq_zero_or_pos i with h0 | hpos
    · subst h0; rfl
    · obtain ⟨i', rfl⟩ : ∃ i', i = i' + 1 := ⟨i - 1, by omega⟩
      have hrec := ih (a + 1) (readBytes m (a + 1) n) rfl i' (by omega)
      have e : a + (i' + 1) = a + 1 + i' := by omega
      rw [e, hrec]
      rfl

theorem readBytes_of_getD (m : Mem) :
    ∀ (bs : List Nat) (a : Nat), (∀ i, i < bs.length → m (a + i) = bs.getD i 0) →
      readBytes m a bs.length = bs := by
  intro bs
  induction bs with
  | nil => intro a _; rfl
  | cons b rest ih =>
    intro a h
    show readBytes m a (rest.length + 1) = b :: rest
    unfold readBytes
    have hh : m a = b := by simpa using h 0 (by simp)
    have ht : readBytes m (a + 1) rest.length = rest :=
      ih (a + 1) fun i hi => by
        have h2 := h (i + 1) (by simpa using Nat.succ_lt_succ hi)
        have e : a + (i + 1) = a + 1 + i := by omega
        rw [e] at h2
        exact h2
    rw [hh, ht]

/-- Bitwise AND with the 32-bit word `-4` clears the two low bits. -/
theorem and_mask_neg4 {x : Nat} (hx : x < 4294967296) :
    x &&& 0xFFFFFFFC = x / 4 * 4 := by
  have hsh : x / 4 * 4 = (x >>> 2) <<< 2 := by
    rw [Nat.shiftRight_eq_div_pow, Nat.shiftLeft_eq]
  have hc : (0xFFFFFFFC : Nat) = (2 ^ 30 - 1) <<< 2 := by
    rw [Nat.shiftLeft_eq]
    norm_num
  apply Nat.eq_of_testBit_eq
  intro i
  rw [Nat.testBit_and, hsh, hc]
  simp only [Nat.testBit_shiftLeft, Nat.testBit_two_pow_sub_one, Nat.testBit_shiftRight]
  by_cases h2 : 2 ≤ i
  · have hadd : 2 + (i - 2) = i := by omega
    rw [hadd]
    by_cases h30 : i - 2 < 30
    · simp [h2, h30]
    · have hbit : x.testBit i = false := Nat.testBit_lt_two_pow (by
        calc x < 4294967296 := hx
          _ = 2 ^ 32 := by norm_num
          _ ≤ 2 ^ i := Nat.pow_le_pow_right (by omega) (by omega))
      simp [h2, h30, hbit]
  · simp [h2, show ¬ i ≥ 2 from h2]

/-- Bounds of the emitted aligned allocation size. -/
theorem alignSize_bounds {len : Nat} (h : len + 11 < 4294967296) :
    len + 8 ≤ alignSize len ∧ alignSize len ≤ len + 11 := by
  unfold alignSize wrapU
  rw [Nat.mod_eq_of_lt (by omega), and_mask_neg4 (by omega)]
  omega

theorem toS32_of_lt {n : Nat} (h : n < 2147483648) : toS32 n = (n : Int) := by
  unfold toS32
  rw [if_pos h]

/-- `rustpython_parser::ast::Constant`, restricted to the variants the
lowerings match on (`other` stands for the remaining variants hit by the
catch-all arm). -/
inductive PyConst where
  | int (i : Int)
  | float
  | bool (b : Bool)
  | none
  | str (s : String)
  | other

/-- `ast::Operator` as matched by the lowerings. -/
inductive PyOperator where
  | add
  | sub
  | mult
  | div
  | floorDiv
  | modOp
  | other

/-- `ast::CmpOp` as matched by the lowerings. -/
inductive PyCmpOp where
  | eq
  | notEq
  | lt
  | ltE
  | gt
  | gtE
  | other

/-- `ast::UnaryOp` as matched by the lowerings. -/
inductive PyUnaryOp where
  | uSub
  | notOp
  | other

/-- `rustpython_parser::ast::Expr`, restricted to the variants the
lowerings match on; `ifExp` is the `x if c else y` conditional
expression (fields `test`, `body`, `orelse`), which NO arm of either
lowering matches, so it falls to the catch-all. Every other unlisted
`ast::Expr` variant behaves like `ifExp` there. -/
inductive PyExpr where
  | constant (c : PyConst)
  | name (id : String)
  | binOp (op : PyOperator) (left right : PyExpr)
  | compare (left : PyExpr) (ops : List PyCmpOp) (comparators : List PyExpr)
  | unaryOp (op : PyUnaryOp) (operand : PyExpr)
  | call (func : PyExpr) (args : List PyExpr)
  | list (elts : List PyExpr)
  | dict (keys : List (Option PyExpr)) (values : List PyExpr)
  | subscript (value index : PyExpr)
  | attribute (value : PyExpr) (attr : String)
  | ifExp (test body orelse : PyExpr)

mutual
/-- `IRLowering::lower_expr` (compiler/lowering.rs). The `Name` arm's
`current_locals.entry(..).or_insert(len)` only records the local for a
later index assignment and never changes the produced expression or any
error, so the embedding carries just the read-only `defined` function
table consulted by the `Call` arm. `IRExpr.binOp`/`unaryOp` codes follow
the `ir.rs` variant order (Add=0 .. Mod=5, Eq=6 .. Ge=11; Neg=0,
Not=1). -/
def lowerExpr (defined : List String) : PyExpr → Except String IRExpr
  | .constant c =>
    match c with
    | .int i =>
      if i < -2147483648 ∨ 2147483647 < i then Except.error "Integer too large"
      else Except.ok (.const i)
    | .float => Except.error "Float literals not allowed (non-deterministic)"
    | .bool b => Except.ok (.const (if b then 1 else 0))
    | .none => Except.ok (.const 0)
    | .str _ => Except.error "String literals require runtime support"
    | .other => Except.error "Unsupported constant type"
  | .name id => Except.ok (.loadLocal id)
  | .binOp op l r => do
    let left ← lowerExpr defined l
    let right ← lowerExpr defined r
    match op with
    | .add => Except.ok (.binOp 0 left right)
    | .sub => Except.ok (.binOp 1 left right)
    | .mult => Except.ok (.binOp 2 left right)
    | .div => Except.ok (.binOp 3 left right)
    | .floorDiv => Except.ok (.binOp 4 left right)
    | .modOp => Except.ok (.binOp 5 left right)
    | .other => Except.error "Unsupported binary operator"
  | .compare l ops comparators =>
    match ops, comparators with
    | [op], [comp] => do
      let left ← lowerExpr defined l
      let right ← lowerExpr defined comp
      match op with
      | .eq => Except.ok (.binOp 6 left right)
      | .notEq => Except.ok (.binOp 7 left right)
      | .lt => Except.ok (.binOp 8 left right)
      | .ltE => Except.ok (.binOp 9 left right)
      | .gt => Except.ok (.binOp 10 left right)
      | .gtE => Except.ok (.binOp 11 left right)
      | .other => Except.error "Unsupported comparison operator"
    | _, _ => Except.error "Chained comparisons not supported"
  | .unaryOp op operand => do
    let o ← lowerExpr defined operand
    match op with
    | .uSub => Except.ok (.unaryOp 0 o)
    | .notOp => Except.ok (.unaryOp 1 o)
    | .other => Except.error "Unsupported unary operator"
  | .call f args =>
    match f with
    | .name fname =>
      if fname = "range" then Except.error "range() must be used only in for loops"
      else if ¬ defined.contains fname then
        Except.error ("Function \x27" ++ fname ++ "\x27 not defined")
      else do
        let loweredArgs ← lowerExprList defined args
        Except.ok (.call fname loweredArgs)
    | _ => Except.error "Only simple function calls supported"
  | .list elts => do
    let es ← lowerExprList defined elts
    Except.ok (.list es)
  | .dict keys values =>
    if keys.length ≠ values.length then Except.error "Dict keys/values length mismatch"
    else do
      let pairs ← lowerDictPairs defined keys values
      Except.ok (.dict pairs)
  | .subscript v idx => do
    let value ← lowerExpr defined v
    let index ← lowerExpr defined idx
    Except.ok (.subscript value index)
  | .attribute _ _ => Except.error "Attribute access requires runtime support"
  | .ifExp _ _ _ => Except.error "Unsupported expression type"
termination_by e => sizeOf e

/-- The `collect::<Result<Vec<_>>>` over lowered call/list elements. -/
def lowerExprList (defined : List String) : List PyExpr → Except String (List IRExpr)
  | [] => Except.ok []
  | e :: rest => do
    let e0 ← lowerExpr defined e
    let rest0 ← lowerExprList defined rest
    Except.ok (e0 :: rest0)
termination_by es => sizeOf es

/-- The dict arm's zip over keys and values, erroring on a `None` key
(`**` expansion). -/
def lowerDictPairs (defined : List String) :
    List (Option PyExpr) → List PyExpr → Except String (List (IRExpr × IRExpr))
  | [], _ => Except.ok []
  | _ :: _, [] => Except.ok []
  | k? :: ks, v :: vs =>
    match k? with
    | Option.none => Except.error "Dict **expansion not supported"
    | Option.some k => do
      let k0 ← lowerExpr defined k
      let v0 ← lowerExpr defined v
      let rest ← lowerDictPairs defined ks vs
      Except.ok ((k0, v0) :: rest)
termination_by ks vs => sizeOf ks + sizeOf vs
end

/-- `python_compiler.rs`'s own `enum IRExpr` (it has `Attribute`,
`Subscript` and `Str` nodes of its own). -/
inductive PCIRExpr where
  | const (v : Int)
  | loadLocal (name : String)
  | binOp (op : Nat) (left right : PCIRExpr)
  | unaryOp (op : Nat) (operand : PCIRExpr)
  | call (func : String) (args : List PCIRExpr)
  | attribute (obj : PCIRExpr) (attr : String)
  | subscript (obj index : PCIRExpr)
  | list (items : List PCIRExpr)
  | dict (pairs : List (PCIRExpr × PCIRExpr))
  | str (s : String)

/-- `python_compiler.rs::validate_int_expr`: the shallow container-element
check. -/
def validateIntExpr : PyExpr → Except String Unit
  | .constant c =>
    match c with
    | .int _ => Except.ok ()
    | .bool _ => Except.ok ()
    | .none => Except.ok ()
    | _ => Except.error "Only int/bool/None allowed in containers"
  | .name _ => Except.ok ()
  | .binOp _ _ _ => Except.ok ()
  | .compare _ _ _ => Except.ok ()
  | _ => Except.error "Complex expressions not allowed in containers"

/-- The list arm's validation loop. -/
def validateList : List PyExpr → Except String Unit
  | [] => Except.ok ()
  | e :: rest => do
    let _ ← validateIntExpr e
    validateList rest

/-- The dict arm's validation loop (keys zipped with values; `None` keys
are skipped). -/
def validateDict : List (Option PyExpr) → List PyExpr → Except String Unit
  | [], _ => Except.ok ()
  | _ :: _, [] => Except.ok ()
  | k? :: ks, v :: vs =>
    match k? with
    | Option.none => validateDict ks vs
    | Option.some k => do
      let _ ← validateIntExpr k
      let _ ← validateIntExpr v
      validateDict ks vs

mutual
/-- `PythonCompiler::lower_expr` of `python_compiler.rs` (the compiler
instantiated by `lib.rs`). It differs from `compiler/lowering.rs` in
accepting string literals (`IRExpr::Str`) and `Attribute` nodes and in
pre-validating container elements; its `Call` arm still requires a plain
`Name` callee, and it has no `IfExp`/`Subscript` arms, so those hit the
catch-all. Same read-only `defined` treatment as `lowerExpr`. -/
def pcLowerExpr (defined : List String) : PyExpr → Except String PCIRExpr
  | .constant c =>
    match c with
    | .int i =>
      if i < -2147483648 ∨ 2147483647 < i then Except.error "Integer too large"
      else Except.ok (.const i)
    | .float => Except.error "Float literals not allowed (non-deterministic)"
    | .bool b => Except.ok (.const (if b then 1 else 0))
    | .none => Except.ok (.const 0)
    | .str s => Except.ok (.str s)
    | .other => Except.error "Unsupported constant type"
  | .name id => Except.ok (.loadLocal id)
  | .binOp op l r => do
    let left ← pcLowerExpr defined l
    let right ← pcLowerExpr defined r
    match op with
    | .add => Except.ok (.binOp 0 left right)
    | .sub => Except.ok (.binOp 1 left right)
    | .mult => Except.ok (.binOp 2 left right)
    | .div => Except.ok (.binOp 3 left right)
    | .floorDiv => Except.ok (.binOp 4 left right)
    | .modOp => Except.ok (.binOp 5 left right)
    | .other => Except.error "Unsupported binary operator"
  | .compare l ops comparators =>
    match ops, comparators with
    | [op], [comp] => do
      let left ← pcLowerExpr defined l
      let right ← pcLowerExpr defined comp
      match op with
      | .eq => Except.ok (.binOp 6 left right)
      | .notEq => Except.ok (.binOp 7 left right)
      | .lt => Except.ok (.binOp 8 left right)
      | .ltE => Except.ok (.binOp 9 left right)
      | .gt => Except.ok (.binOp 10 left right)
      | .gtE => Except.ok (.binOp 11 left right)
      | .other => Except.error "Unsupported comparison operator"
    | _, _ => Except.error "Chained comparisons not supported"
  | .unaryOp op operand => do
    let o ← pcLowerExpr defined operand
    match op with
    | .uSub => Except.ok (.unaryOp 0 o)
    | .notOp => Except.ok (.unaryOp 1 o)
    | .other => Except.error "Unsupported unary operator"
  | .call f args =>
    match f with
    | .name fname =>
      if fname = "range" then Except.error "range() must be used only in for loops"
      else if ¬ defined.contains fname then
        Except.error ("Function \x27" ++ fname ++ "\x27 not defined")
      else do
        let loweredArgs ← pcLowerExprList defined args
        Except.ok (.call fname loweredArgs)
    | _ => Except.error "Only simple function calls supported"
  | .list elts => do
    let _ ← validateList elts
    let items ← pcLowerExprList defined elts
    Except.ok (.list items)
  | .dict keys values => do
    let _ ← validateDict keys values
    let pairs ← pcLowerDictPairs defined keys values
    Except.ok (.dict pairs)
  | .attribute v attr => do
    let obj ← pcLowerExpr defined v
    Except.ok (.attribute obj attr)
  | .subscript _ _ => Except.error "Unsupported expression type"
  | .ifExp _ _ _ => Except.error "Unsupported expression type"
termination_by e => sizeOf e

def pcLowerExprList (defined : List String) : List PyExpr → Except String (List PCIRExpr)
  | [] => Except.ok []
  | e :: rest => do
    let e0 ← pcLowerExpr defined e
    let rest0 ← pcLowerExprList defined rest
    Except.ok (e0 :: rest0)
termination_by es => sizeOf es

/-- The dict arm's pair-building loop: `None` keys are silently
skipped. -/
def pcLowerDictPairs (defined : List String) :
    List (Option PyExpr) → List PyExpr → Except String (List (PCIRExpr × PCIRExpr))
  | [], _ => Except.ok []
  | _ :: _, [] => Except.ok []
  | k? :: ks, v :: vs =>
    match k? with
    | Option.none => pcLowerDictPairs defined ks vs
    | Option.some k => do
      let k0 ← pcLowerExpr defined k
      let v0 ← pcLowerExpr defined v
      let rest ← pcLowerDictPairs defined ks vs
      Except.ok ((k0, v0) :: rest)
termination_by ks vs => sizeOf ks + sizeOf vs
end

/-- The AST of `hashlib.sha256("abc".encode()).hexdigest()`: a `Call`
whose callee is an `Attribute`. -/
def C5progAst : PyExpr :=
  .call (.attribute (.call (.attribute (.name "hashlib") "sha256")
    [.call (.attribute (.constant (.str "abc")) "encode") []]) "hexdigest") []

/-- The AST of `1 if "hello" == "hel" + "lo" else 0`: an `IfExp`
conditional expression. -/
def C6progAst : PyExpr :=
  .ifExp (.compare (.constant (.str "hello")) [.eq]
      [.binOp .add (.constant (.str "hel")) (.constant (.str "lo"))])
    (.constant (.int 1)) (.constant (.int 0))

/-- Possible outcomes of the emitted `StringLayout::equals` block. -/
inductive EqRes where
  | retF (v : Nat)
  | push (v : Nat)
deriving DecidableEq, Repr

/-- The byte-comparison loop of `StringLayout::equals`: exit with 1 when
the counter reaches the length; emit `I32Const 0; Return` — returning
from the whole enclosing Wasm function — on the first mismatching byte. -/
def eqLoop (m : Mem) (p1 p2 : Nat) : Nat → Nat → EqRes
  | 0, _ => EqRes.push 1
  | k + 1, c =>
    if load8 m (p1 + 8 + c) ≠ load8 m (p2 + 8 + c) then EqRes.retF 0
    else eqLoop m p1 p2 k (c + 1)

/-- Semantics of the emitted `StringLayout::equals` block on two string
pointers: load both lengths; if they differ, `I32Const 0; Return` (exit
the enclosing function with result 0); otherwise compare all payload
bytes, returning early on a mismatch and falling through with 1 pushed
when every byte matches. -/
def equalsRun (m : Mem) (p1 p2 : Nat) : EqRes :=
  let len1 := load32 m (p1 + 4)
  let len2 := load32 m (p2 + 4)
  if len1 ≠ len2 then EqRes.retF 0
  else eqLoop m p1 p2 len1 0

/-- Semantics of the emitted `StringLayout::concat` block: load both
lengths, add them (`I32Add`), trap when the bump pointer plus the aligned
size `(total + 8 + 3) & -4` exceeds the heap limit, write the STRING tag
and total length at the bump pointer, byte-copy the first then the second
payload, advance the bump pointer, and push the new object's address. -/
def concatRun (h : Heap) (p1 p2 : Nat) : Option (Nat × Heap) :=
  let len1 := load32 h.mem (p1 + 4)
  let len2 := load32 h.mem (p2 + 4)
  let tot := wrapU (len1 + len2)
  let asize := alignSize tot
  if wrapU (h.hp + asize) > HEAP_LIMIT then none
  else
    let m1 := store32 h.mem h.hp 3
    let m2 := store32 m1 (h.hp + 4) tot
    let m3 := copyLoop (h.hp + 8) (p1 + 8) len1 0 m2
    let m4 := copyLoop (h.hp + 8 + len1) (p2 + 8) len2 0 m3
    some (h.hp, ⟨m4, h.hp + asize⟩)

/-- Semantics of the emitted `StringLayout::slice` block: clamp `start`
into `[0, len]` and `end` into `[start, len]` with signed comparisons,
compute the slice length (`I32Sub`), trap when the bump pointer plus the
aligned size exceeds the heap limit, write the STRING tag and slice
length, byte-copy `src[8+start ..]`, advance the bump pointer and push
the new object's address. -/
def sliceRun (h : Heap) (p start0 end0 : Nat) : Option (Nat × Heap) :=
  let len := load32 h.mem (p + 4)
  let s1 := if toS32 start0 < 0 then 0 else start0
  let s2 := if toS32 len < toS32 s1 then len else s1
  let e1 := if toS32 end0 < toS32 s2 then s2 else end0
  let e2 := if toS32 len < toS32 e1 then len else e1
  let n := sub32 e2 s2
  let asize := alignSize n
  if wrapU (h.hp + asize) > HEAP_LIMIT then none
  else
    let m1 := store32 h.mem h.hp 3
    let m2 := store32 m1 (h.hp + 4) n
    let m3 := copyLoop (h.hp + 8) (p + 8 + s2) n 0 m2
    some (h.hp, ⟨m3, h.hp + asize⟩)

/-- The byte-comparison loop reduces to equality of the two byte ranges. -/
theorem eqLoop_spec (m : Mem) (p1 p2 : Nat) :
    ∀ (k c : Nat),
      eqLoop m p1 p2 k c =
        if readBytes m (p1 + 8 + c) k = readBytes m (p2 + 8 + c) k
        then EqRes.push 1 else EqRes.retF 0 := by
  intro k
  induction k with
  | zero =>
    intro c
    unfold eqLoop readBytes
    rw [if_pos rfl]
  | succ k ih =>
    intro c
    have e1 : readBytes m (p1 + 8 + c) (k + 1) =
        m (p1 + 8 + c) :: readBytes m (p1 + 8 + (c + 1)) k := rfl
    have e2 : readBytes m (p2 + 8 + c) (k + 1) =
        m (p2 + 8 + c) :: readBytes m (p2 + 8 + (c + 1)) k := rfl
    rw [e1, e2]
    unfold eqLoop
    show (if m (p1 + 8 + c) ≠ m (p2 + 8 + c) then EqRes.retF 0
        else eqLoop m p1 p2 k (c + 1)) = _
    by_cases hb : m (p1 + 8 + c) = m (p2 + 8 + c)
    · rw [if_neg (not_not_intro hb), ih (c + 1)]
      by_cases ht : readBytes m (p1 + 8 + (c + 1)) k = readBytes m (p2 + 8 + (c + 1)) k
      · rw [if_pos ht, if_pos (by rw [hb]; exact congrArg _ ht)]
      · rw [if_neg ht, if_neg (fun hc => ht (List.cons.inj hc).2)]
    · rw [if_pos hb, if_neg (fun hc => hb (List.cons.inj hc).1)]

/-- The emitted `equals` block pushes 1 exactly on byte-for-byte equal
strings and early-returns 0 otherwise. -/
theorem equals_spec (m : Mem) (p1 p2 : Nat) (b1 b2 : List Nat)
    (h1 : strObj m p1 b1) (h2 : strObj m p2 b2) :
    equalsRun m p1 p2 = if b1 = b2 then EqRes.push 1 else EqRes.retF 0 := by
  obtain ⟨-, hl1, hb1⟩ := h1
  obtain ⟨-, hl2, hb2⟩ := h2
  show (if load32 m (p1 + 4) ≠ load32 m (p2 + 4) then EqRes.retF 0
      else eqLoop m p1 p2 (load32 m (p1 + 4)) 0) = _
  rw [hl1, hl2]
  by_cases hlen : b1.length = b2.length
  · rw [if_neg (not_not_intro hlen), eqLoop_spec]
    rw [show p1 + 8 + 0 = p1 + 8 from rfl, show p2 + 8 + 0 = p2 + 8 from rfl]
    rw [hb1, hlen, hb2]
  · rw [if_pos hlen, if_neg (fun hc => hlen (congrArg List.length hc))]

/-- Concrete memory for the `equals` early-return counterexample: the
strings "a" at 2048 and "b" at 2064. -/
def C6mem : Mem :=
  writeBytes (writeBytes (fun _ => 0) 2048 [3, 0, 0, 0, 1, 0, 0, 0, 97])
    2064 [3, 0, 0, 0, 1, 0, 0, 0, 98]

/-- Concrete heap for the `"hello" == "hel" + "lo"` scenario: "hel" at
2048, "lo" at 2064, "hello" at 2080, bump pointer 2096. -/
def C6heap : Heap :=
  ⟨writeBytes
      (writeBytes (writeBytes (fun _ => 0) 2048 [3, 0, 0, 0, 3, 0, 0, 0, 104, 101, 108])
        2064 [3, 0, 0, 0, 2, 0, 0, 0, 108, 111])
      2080 [3, 0, 0, 0, 5, 0, 0, 0, 104, 101, 108, 108, 111],
    2096⟩

/-- **C6, counterexample.** Two failures of the claim. First, on the
unequal one-byte strings "a" and "b" the emitted `equals` block does not
push 0 and continue normally: it executes `I32Const 0; Return`, exiting
the whole enclosing function. Second, the claim's program
`OUTPUT = 1 if "hello" == "hel"+"lo" else 0` does not compile: its
outermost expression is an `IfExp`, which neither lowering has an arm
for, and the `compiler/` lowering additionally rejects the string
literals, whatever the defined-function table. -/
theorem C6_counterexample :
    (strObj C6mem 2048 [97] ∧ strObj C6mem 2064 [98] ∧
      equalsRun C6mem 2048 2064 = EqRes.retF 0 ∧
      EqRes.retF 0 ≠ EqRes.push 0) ∧
    (∀ defined, lowerExpr defined C6progAst =
      Except.error "Unsupported expression type") ∧
    (∀ defined, pcLowerExpr defined C6progAst =
      Except.error "Unsupported expression type") ∧
    (∀ defined, lowerExpr defined (.constant (.str "hello")) =
      Except.error "String literals require runtime support") := by
  refine ⟨⟨?_, ?_, ?_, ?_⟩, ?_, ?_, ?_⟩
  · unfold strObj
    decide
  · unfold strObj
    decide
  · decide
  · decide
  · intro defined
    simp [C6progAst, lowerExpr]
  · intro defined
    simp [C6progAst, pcLowerExpr]
  · intro defined
    simp [lowerExpr]

/-- **C6 (amended).** For STRING objects `a` at `p1` and `b` at `p2`, the
emitted `a == b` block pushes 1 and falls through when the payloads are
byte-for-byte equal; on unequal strings it returns 0 from the enclosing
function (an early `Return`, not a normal push). Moreover, on the
concrete heap holding "hel", "lo" and "hello", concatenating "hel" and
"lo" yields a STRING "hello" at the old bump pointer and comparing it
with the literal "hello" pushes 1. -/
theorem C6_equals (m : Mem) (p1 p2 : Nat) (b1 b2 : List Nat)
    (h1 : strObj m p1 b1) (h2 : strObj m p2 b2) :
    equalsRun m p1 p2 = (if b1 = b2 then EqRes.push 1 else EqRes.retF 0) ∧
      ∃ hout : Heap, concatRun C6heap 2048 2064 = some (2096, hout) ∧
        strObj hout.mem 2096 [104, 101, 108, 108, 111] ∧
        equalsRun hout.mem 2080 2096 = EqRes.push 1 := by
  refine ⟨equals_spec m p1 p2 b1 b2 h1 h2, ⟨_, rfl, ?_, ?_⟩⟩
  · unfold strObj
    decide
  · decide

/-- **C6, witness.** The amended theorem applied to the strings "hel" and
"lo" of the concrete heap. -/
theorem C6_witness :
    equalsRun C6heap.mem 2048 2064 =
        (if ([104, 101, 108] : List Nat) = [108, 111] then EqRes.push 1 else EqRes.retF 0) ∧
      ∃ hout : Heap, concatRun C6heap 2048 2064 = some (2096, hout) ∧
        strObj hout.mem 2096 [104, 101, 108, 108, 111] ∧
        equalsRun hout.mem 2080 2096 = EqRes.push 1 :=
  C6_equals C6heap.mem 2048 2064 [104, 101, 108] [108, 111]
    (by unfold strObj; decide) (by unfold strObj; decide)

theorem load32_agree (m1 m2 : Mem) (a : Nat)
    (h : ∀ i, i < 4 → m1 (a + i) = m2 (a + i)) : load32 m1 a = load32 m2 a := by
  have h0 := h 0 (by omega)
  have h1 := h 1 (by omega)
  have h2 := h 2 (by omega)
  have h3 := h 3 (by omega)
  simp only [Nat.add_zero] at h0
  unfold load32
  rw [h0, h1, h2, h3]

theorem byteMem_zeroMem : byteMem (fun _ => 0) := by
  intro x
  show (0 : Nat) < 256
  decide

theorem writeBytes_byteMem :
    ∀ (bs : List Nat) (m : Mem), byteMem m → ∀ a, byteMem (writeBytes m a bs) := by
  intro bs
  induction bs with
  | nil => intro m hm a; exact hm
  | cons b rest ih => intro m hm a; exact ih _ (store8_byteMem hm _ _) _

theorem copyLoop_read0 (dst src k : Nat) (m : Mem) (hd : src + k ≤ dst)
    (j : Nat) (hj : j < k) : copyLoop dst src k 0 m (dst + j) = m (src + j) % 256 := by
  have h := copyLoop_read dst src k 0 m hd j hj
  simpa using h

theorem getD_drop_take {bs : List Nat} {s e i : Nat} (hi : i < e - s)
    (he : e ≤ bs.length) :
    ((bs.drop s).take (e - s)).getD i 0 = bs.getD (s + i) 0 := by
  have h1 : i < ((bs.drop s).take (e - s)).length := by
    rw [List.length_take, List.length_drop]
    omega
  have h2 : s + i < bs.length := by omega
  rw [List.getD_eq_getElem _ _ h1, List.getD_eq_getElem _ _ h2]
  simp

/-- The emitted `concat` block on two STRING objects: no trap when the
heap has room, the result lives at the old bump pointer, its payload is
the concatenation, all bytes stay bytes and memory below the old bump
pointer is untouched. -/
theorem concat_spec (h : Heap) (p1 p2 : Nat) (b1 b2 : List Nat)
    (hm : byteMem h.mem)
    (h1 : strObj h.mem p1 b1) (h2 : strObj h.mem p2 b2)
    (hp1 : p1 + 8 + b1.length ≤ h.hp) (hp2 : p2 + 8 + b2.length ≤ h.hp)
    (hlen : b1.length + b2.length + 11 < 4294967296)
    (hroom : h.hp + alignSize (b1.length + b2.length) ≤ HEAP_LIMIT) :
    ∃ m', concatRun h p1 p2 =
        some (h.hp, ⟨m', h.hp + alignSize (b1.length + b2.length)⟩) ∧
      strObj m' h.hp (b1 ++ b2) ∧ byteMem m' ∧
      ∀ x, x < h.hp → m' x = h.mem x := by
  obtain ⟨-, hl1, hb1⟩ := h1
  obtain ⟨-, hl2, hb2⟩ := h2
  have htot : wrapU (b1.length + b2.length) = b1.length + b2.length :=
    Nat.mod_eq_of_lt (by omega)
  simp only [concatRun]
  rw [hl1, hl2, htot]
  have hHL : HEAP_LIMIT = 4194304 := rfl
  have hwr : wrapU (h.hp + alignSize (b1.length + b2.length)) =
      h.hp + alignSize (b1.length + b2.length) := Nat.mod_eq_of_lt (by omega)
  rw [hwr, if_neg (by omega)]
  set M2 : Mem := store32 (store32 h.mem h.hp 3) (h.hp + 4) (b1.length + b2.length)
    with hM2
  set M3 : Mem := copyLoop (h.hp + 8) (p1 + 8) b1.length 0 M2 with hM3
  set M4 : Mem := copyLoop (h.hp + 8 + b1.length) (p2 + 8) b2.length 0 M3 with hM4
  have below2 : ∀ x, x < h.hp → M2 x = h.mem x := by
    intro x hx
    rw [hM2, store32_outside _ _ _ _ (by omega), store32_outside _ _ _ _ (by omega)]
  have agree2 : ∀ x, x < h.hp + 8 → M4 x = M2 x := by
    intro x hx
    rw [hM4, copyLoop_outside (h.hp + 8 + b1.length) (p2 + 8) b2.length 0 M3 x (by omega),
      hM3, copyLoop_outside (h.hp + 8) (p1 + 8) b1.length 0 M2 x (by omega)]
  have tag4 : load32 M4 h.hp = 3 := by
    have w1 : load32 M4 h.hp = load32 M2 h.hp :=
      load32_agree M4 M2 h.hp (fun i hi => agree2 _ (by omega))
    have w2 : load32 M2 h.hp = load32 (store32 h.mem h.hp 3) h.hp :=
      load32_agree M2 _ h.hp (fun i hi => by
        rw [hM2, store32_outside _ _ _ _ (by omega)])
    rw [w1, w2, load32_store32 _ _ _ (by omega)]
  have len4 : load32 M4 (h.hp + 4) = b1.length + b2.length := by
    have w1 : load32 M4 (h.hp + 4) = load32 M2 (h.hp + 4) :=
      load32_agree M4 M2 (h.hp + 4) (fun i hi => agree2 _ (by omega))
    rw [w1, hM2, load32_store32 _ _ _ (by omega)]
  have read4 : ∀ i, i < b1.length + b2.length →
      M4 (h.hp + 8 + i) = (b1 ++ b2).getD i 0 := by
    intro i hi
    by_cases hc : i < b1.length
    · rw [List.getD_append _ _ _ _ hc]
      rw [hM4, copyLoop_outside (h.hp + 8 + b1.length) (p2 + 8) b2.length 0 M3 _
        (by omega)]
      rw [hM3, copyLoop_read0 (h.hp + 8) (p1 + 8) b1.length M2 (by omega) i hc]
      have w2 : M2 (p1 + 8 + i) = h.mem (p1 + 8 + i) := by
        rw [hM2, store32_outside _ _ _ _ (by omega), store32_outside _ _ _ _ (by omega)]
      rw [w2, Nat.mod_eq_of_lt (hm _)]
      exact readBytes_getD h.mem b1.length (p1 + 8) b1 hb1 i hc
    · obtain ⟨j, rfl⟩ : ∃ j, i = b1.length + j := ⟨i - b1.length, by omega⟩
      have hj : j < b2.length := by omega
      rw [List.getD_append_right _ _ _ _ (by omega), Nat.add_sub_cancel_left]
      rw [show h.hp + 8 + (b1.length + j) = h.hp + 8 + b1.length + j from by omega]
      rw [hM4, copyLoop_read0 (h.hp + 8 + b1.length) (p2 + 8) b2.length M3
        (by omega) j hj]
      have w2 : M3 (p2 + 8 + j) = M2 (p2 + 8 + j) := by
        rw [hM3, copyLoop_outside (h.hp + 8) (p1 + 8) b1.length 0 M2 _ (by omega)]
      have w3 : M2 (p2 + 8 + j) = h.mem (p2 + 8 + j) := by
        rw [hM2, store32_outside _ _ _ _ (by omega), store32_outside _ _ _ _ (by omega)]
      rw [w2, w3, Nat.mod_eq_of_lt (hm _)]
      exact readBytes_getD h.mem b2.length (p2 + 8) b2 hb2 j hj
  refine ⟨M4, rfl, ⟨tag4, ?_, ?_⟩, ?_, ?_⟩
  · rw [len4, List.length_append]
  · exact readBytes_of_getD M4 (b1 ++ b2) (h.hp + 8)
      (fun i hi => read4 i (by rwa [List.length_append] at hi))
  · rw [hM4, hM3, hM2]
    exact copyLoop_byteMem _ _ _ _ _ (copyLoop_byteMem _ _ _ _ _
      (store32_byteMem (store32_byteMem hm _ _) _ _))
  · intro x hx
    rw [agree2 x (by omega), below2 x hx]

/-- The emitted `slice` block on a STRING object with in-range bounds:
no trap when the heap has room, the result lives at the old bump pointer
and its payload is the selected byte range. -/
theorem slice_spec (h : Heap) (p : Nat) (bs : List Nat) (s e : Nat)
    (hm : byteMem h.mem) (h1 : strObj h.mem p bs)
    (hpb : p + 8 + bs.length ≤ h.hp)
    (hse : s ≤ e) (heb : e ≤ bs.length)
    (hsmall : bs.length + 11 < 2147483648)
    (hroom : h.hp + alignSize (e - s) ≤ HEAP_LIMIT) :
    ∃ m', sliceRun h p s e = some (h.hp, ⟨m', h.hp + alignSize (e - s)⟩) ∧
      strObj m' h.hp ((bs.drop s).take (e - s)) ∧ byteMem m' ∧
      ∀ x, x < h.hp → m' x = h.mem x := by
  obtain ⟨-, hl, hb⟩ := h1
  have hts : toS32 s = (s : Int) := toS32_of_lt (by omega)
  have hte : toS32 e = (e : Int) := toS32_of_lt (by omega)
  have htl : toS32 bs.length = (bs.length : Int) := toS32_of_lt (by omega)
  simp only [sliceRun]
  rw [hl]
  rw [if_neg (show ¬ toS32 s < 0 by rw [hts]; omega)]
  rw [if_neg (show ¬ toS32 bs.length < toS32 s by rw [htl, hts]; omega)]
  rw [if_neg (show ¬ toS32 e < toS32 s by rw [hte, hts]; omega)]
  rw [if_neg (show ¬ toS32 bs.length < toS32 e by rw [htl, hte]; omega)]
  have hsub : sub32 e s = e - s := by
    unfold sub32 wrapU
    omega
  rw [hsub]
  have hHL : HEAP_LIMIT = 4194304 := rfl
  have hwr : wrapU (h.hp + alignSize (e - s)) = h.hp + alignSize (e - s) :=
    Nat.mod_eq_of_lt (by omega)
  rw [hwr, if_neg (by omega)]
  set M2 : Mem := store32 (store32 h.mem h.hp 3) (h.hp + 4) (e - s) with hM2
  set M3 : Mem := copyLoop (h.hp + 8) (p + 8 + s) (e - s) 0 M2 with hM3
  have below2 : ∀ x, x < h.hp → M2 x = h.mem x := by
    intro x hx
    rw [hM2, store32_outside _ _ _ _ (by omega), store32_outside _ _ _ _ (by omega)]
  have agree2 : ∀ x, x < h.hp + 8 → M3 x = M2 x := by
    intro x hx
    rw [hM3, copyLoop_outside (h.hp + 8) (p + 8 + s) (e - s) 0 M2 x (by omega)]
  have hlist : ((bs.drop s).take (e - s)).length = e - s := by
    rw [List.length_take, List.length_drop]
    omega
  have tag3 : load32 M3 h.hp = 3 := by
    have w1 : load32 M3 h.hp = load32 M2 h.hp :=
      load32_agree M3 M2 h.hp (fun i hi => agree2 _ (by omega))
    have w2 : load32 M2 h.hp = load32 (store32 h.mem h.hp 3) h.hp :=
      load32_agree M2 _ h.hp (fun i hi => by
        rw [hM2, store32_outside _ _ _ _ (by omega)])
    rw [w1, w2, load32_store32 _ _ _ (by omega)]
  have len3 : load32 M3 (h.hp + 4) = e - s := by
    have w1 : load32 M3 (h.hp + 4) = load32 M2 (h.hp + 4) :=
      load32_agree M3 M2 (h.hp + 4) (fun i hi => agree2 _ (by omega))
    rw [w1, hM2, load32_store32 _ _ _ (by omega)]
  have read3 : ∀ i, i < e - s →
      M3 (h.hp + 8 + i) = ((bs.drop s).take (e - s)).getD i 0 := by
    intro i hi
    rw [hM3, copyLoop_read0 (h.hp + 8) (p + 8 + s) (e - s) M2 (by omega) i hi]
    have w2 : M2 (p + 8 + s + i) = h.mem (p + 8 + s + i) := by
      rw [hM2, store32_outside _ _ _ _ (by omega), store32_outside _ _ _ _ (by omega)]
    rw [w2, Nat.mod_eq_of_lt (hm _), getD_drop_take hi heb]
    rw [show p + 8 + s + i = p + 8 + (s + i) from by omega]
    exact readBytes_getD h.mem bs.length (p + 8) bs hb (s + i) (by omega)
  refine ⟨M3, rfl, ⟨tag3, ?_, ?_⟩, ?_, ?_⟩
  · rw [len3, hlist]
  · exact readBytes_of_getD M3 ((bs.drop s).take (e - s)) (h.hp + 8)
      (fun i hi => read3 i (by rwa [hlist] at hi))
  · rw [hM3, hM2]
    exact copyLoop_byteMem _ _ _ _ _ (store32_byteMem (store32_byteMem hm _ _) _ _)
  · intro x hx
    rw [agree2 x (by omega), below2 x hx]

/-- **C8.** Round-trip for the emitted string routines: slicing the
concatenation of STRING objects `a` and `b` at `[0, len a)` recovers a
STRING with `a`'s length and payload, and at `[len a, len a + len b)`
recovers `b`'s, given sufficient heap room. -/
theorem C8_concat_slice_roundtrip (h : Heap) (p1 p2 : Nat) (b1 b2 : List Nat)
    (hm : byteMem h.mem)
    (h1 : strObj h.mem p1 b1) (h2 : strObj h.mem p2 b2)
    (hp1 : p1 + 8 + b1.length ≤ h.hp) (hp2 : p2 + 8 + b2.length ≤ h.hp)
    (hlen : b1.length + b2.length + 11 < 2147483648)
    (hroomA : h.hp + alignSize (b1.length + b2.length) + alignSize b1.length ≤ HEAP_LIMIT)
    (hroomB : h.hp + alignSize (b1.length + b2.length) + alignSize b2.length ≤ HEAP_LIMIT) :
    ∃ q h', concatRun h p1 p2 = some (q, h') ∧
      (∃ ra hA, sliceRun h' q 0 b1.length = some (ra, hA) ∧ strObj hA.mem ra b1) ∧
      (∃ rb hB, sliceRun h' q b1.length (b1.length + b2.length) = some (rb, hB) ∧
        strObj hB.mem rb b2) := by
  obtain ⟨m', hrun, hstr, hbm, hbelow⟩ :=
    concat_spec h p1 p2 b1 b2 hm h1 h2 hp1 hp2 (by omega) (by omega)
  have halign := @alignSize_bounds (b1.length + b2.length) (by omega)
  refine ⟨h.hp, ⟨m', h.hp + alignSize (b1.length + b2.length)⟩, hrun, ?_, ?_⟩
  · obtain ⟨mA, hrunA, hstrA, -, -⟩ :=
      slice_spec ⟨m', h.hp + alignSize (b1.length + b2.length)⟩ h.hp (b1 ++ b2)
        0 b1.length hbm hstr
        (show h.hp + 8 + (b1 ++ b2).length ≤ h.hp + alignSize (b1.length + b2.length)
          by rw [List.length_append]; omega)
        (by omega)
        (by rw [List.length_append]; omega)
        (by rw [List.length_append]; omega)
        hroomA
    refine ⟨_, _, hrunA, ?_⟩
    have hA : ((b1 ++ b2).drop 0).take (b1.length - 0) = b1 := by
      rw [List.drop_zero, Nat.sub_zero, List.take_left]
    rwa [hA] at hstrA
  · obtain ⟨mB, hrunB, hstrB, -, -⟩ :=
      slice_spec ⟨m', h.hp + alignSize (b1.length + b2.length)⟩ h.hp (b1 ++ b2)
        b1.length (b1.length + b2.length) hbm hstr
        (show h.hp + 8 + (b1 ++ b2).length ≤ h.hp + alignSize (b1.length + b2.length)
          by rw [List.length_append]; omega)
        (by omega)
        (by rw [List.length_append])
        (by rw [List.length_append]; omega)
        (by rw [show b1.length + b2.length - b1.length = b2.length from by omega]
            exact hroomB)
    refine ⟨_, _, hrunB, ?_⟩
    have hB : ((b1 ++ b2).drop b1.length).take (b1.length + b2.length - b1.length) = b2 := by
      rw [Nat.add_sub_cancel_left, List.drop_left, List.take_length]
    rwa [hB] at hstrB

/-- Concrete heap for the C8 witness: "ab" at 2048, "c" at 2064, bump
pointer 2080. -/
def C8heap : Heap :=
  ⟨writeBytes (writeBytes (fun _ => 0) 2048 [3, 0, 0, 0, 2, 0, 0, 0, 97, 98])
    2064 [3, 0, 0, 0, 1, 0, 0, 0, 99], 2080⟩

/-- **C8, witness.** The round-trip theorem applied to the strings "ab"
and "c" of the concrete heap. -/
theorem C8_witness :
    ∃ q h', concatRun C8heap 2048 2064 = some (q, h') ∧
      (∃ ra hA, sliceRun h' q 0 2 = some (ra, hA) ∧ strObj hA.mem ra [97, 98]) ∧
      (∃ rb hB, sliceRun h' q 2 3 = some (rb, hB) ∧ strObj hB.mem rb [99]) :=
  C8_concat_slice_roundtrip C8heap 2048 2064 [97, 98] [99]
    (writeBytes_byteMem _ _ (writeBytes_byteMem _ _ byteMem_zeroMem _) _)
    (by unfold strObj; decide) (by unfold strObj; decide)
    (by decide) (by decide) (by decide) (by decide) (by decide)

/-- `memory.copy`: copy `n` bytes from `src` to `dst` (reads from the
pre-instruction memory, as Wasm `memory.copy` does). -/
def memCopy (m : Mem) (dst src n : Nat) : Mem :=
  fun x => if dst ≤ x ∧ x < dst + n then m (src + (x - dst)) else m x

/-- `memory.fill`: store the low byte of `v` at `n` consecutive
addresses starting at `a`. -/
def memFill (m : Mem) (a n v : Nat) : Mem :=
  fun x => if a ≤ x ∧ x < a + n then v % 256 else m x

/-- The four-`i32.store8` big-endian word store used by the emitted
SHA-256 code for the bit length and the digest words: `v >>> 24`,
`(v >>> 16) & 0xFF`, `(v >>> 8) & 0xFF`, `v & 0xFF`. -/
def storeBE32 (m : Mem) (a v : Nat) : Mem :=
  store8 (store8 (store8 (store8 m a (v >>> 24)) (a + 1) ((v >>> 16) &&& 255))
    (a + 2) ((v >>> 8) &&& 255)) (a + 3) (v &&& 255)

/-- The emitted little-to-big-endian byte swap:
`((w << 24)) | ((w << 8) & 0x00FF0000) | ((w >> 8) & 0x0000FF00) | (w >> 24)`
with each `i32.shl` wrapping to 32 bits. -/
def bswap32 (w : Nat) : Nat :=
  wrapU (w <<< 24) ||| (wrapU (w <<< 8) &&& 0x00FF0000) |||
    ((w >>> 8) &&& 0x0000FF00) ||| (w >>> 24)

/-- `i32.add` on words. -/
def wadd (a b : Nat) : Nat := wrapU (a + b)

/-- The `K` round-constant table emitted by the compiler (first 32 bits
of the fractional parts of the cube roots of the first 64 primes). -/
def K256 : List Nat :=
  [1116352408, 1899447441, 3049323471, 3921009573, 961987163, 1508970993,
   2453635748, 2870763221, 3624381080, 310598401, 607225278, 1426881987,
   1925078388, 2162078206, 2614888103, 3248222580, 3835390401, 4022224774,
   264347078, 604807628, 770255983, 1249150122, 1555081692, 1996064986,
   2554220882, 2821834349, 2952996808, 3210313671, 3336571891, 3584528711,
   113926993, 338241895, 666307205, 773529912, 1294757372, 1396182291,
   1695183700, 1986661051, 2177026350, 2456956037, 2730485921, 2820302411,
   3259730800, 3345764771, 3516065817, 3600352804, 4094571909, 275423344,
   430227734, 506948616, 659060556, 883997877, 958139571, 1322822218,
   1537002063, 1747873779, 1955562222, 2024104815, 2227730452, 2361852424,
   2428436474, 2756734187, 3204031479, 3329325298]

/-- The emitted deterministic constant-selection ladder: start from 0 and
for each table index `i` in order, overwrite the accumulator with the
table entry when `r = i`. -/
def ladderAux (r : Nat) : Nat → List Nat → Nat → Nat
  | _, [], acc => acc
  | i, v :: rest, acc => ladderAux r (i + 1) rest (if r = i then v else acc)

/-- Value selected by the emitted if-ladder over `vals` at index `r`. -/
def ladder (r : Nat) (vals : List Nat) : Nat := ladderAux r 0 vals 0

/-- The eight 32-bit hash/working registers. -/
structure Hash8 where
  v0 : Nat
  v1 : Nat
  v2 : Nat
  v3 : Nat
  v4 : Nat
  v5 : Nat
  v6 : Nat
  v7 : Nat
deriving DecidableEq, Repr

/-- The initial hash constants H0..H7 emitted by the compiler. -/
def H8init : Hash8 :=
  ⟨1779033703, 3144134277, 1013904242, 2773480762,
   1359893119, 2600822924, 528734635, 1541459225⟩

/-- Schedule sigma0: `ROTR(x,7) ^ ROTR(x,18) ^ (x >> 3)`. -/
def sig0 (x : Nat) : Nat := rotr32 x 7 ^^^ rotr32 x 18 ^^^ (x >>> 3)

/-- Schedule sigma1: `ROTR(x,17) ^ ROTR(x,19) ^ (x >> 10)`. -/
def sig1 (x : Nat) : Nat := rotr32 x 17 ^^^ rotr32 x 19 ^^^ (x >>> 10)

/-- Compression Sigma0: `ROTR(a,2) ^ ROTR(a,13) ^ ROTR(a,22)`. -/
def bigSig0 (x : Nat) : Nat := rotr32 x 2 ^^^ rotr32 x 13 ^^^ rotr32 x 22

/-- Compression Sigma1: `ROTR(e,6) ^ ROTR(e,11) ^ ROTR(e,25)`. -/
def bigSig1 (x : Nat) : Nat := rotr32 x 6 ^^^ rotr32 x 11 ^^^ rotr32 x 25

/-- `ch = (e & f) ^ ((e ^ -1) & g)` as emitted. -/
def chFn (e f g : Nat) : Nat := (e &&& f) ^^^ ((e ^^^ 0xFFFFFFFF) &&& g)

/-- `maj = (a & b) ^ (a & c) ^ (b & c)` as emitted. -/
def majFn (a b c : Nat) : Nat := (a &&& b) ^^^ (a &&& c) ^^^ (b &&& c)

/-- The message-schedule extension loop: append
`w[i-16] + s0(w[i-15]) + w[i-7] + s1(w[i-2])` (wrapping adds) `k`
times. -/
def schedule : Nat → List Nat → List Nat
  | 0, ws => ws
  | k + 1, ws =>
    schedule k (ws ++ [wadd (wadd (wadd (ws.getD (ws.length - 16) 0)
      (sig0 (ws.getD (ws.length - 15) 0))) (ws.getD (ws.length - 7) 0))
      (sig1 (ws.getD (ws.length - 2) 0))])

/-- One emitted compression round: `K` and `w` are fetched through the
if-ladders, temp sums wrap, and the eight registers rotate. -/
def roundStep (ws : List Nat) (r : Nat) (st : Hash8) : Hash8 :=
  let s1 := bigSig1 st.v4
  let ch := chFn st.v4 st.v5 st.v6
  let kv := ladder r K256
  let wv := ladder r ws
  let t1 := wadd (wadd (wadd (wadd st.v7 s1) ch) kv) wv
  let s0 := bigSig0 st.v0
  let mj := majFn st.v0 st.v1 st.v2
  let t2 := wadd s0 mj
  ⟨wadd t1 t2, st.v0, st.v1, st.v2, wadd st.v3 t1, st.v4, st.v5, st.v6⟩

/-- The emitted 64-round loop. -/
def roundsLoop (ws : List Nat) : Nat → Nat → Hash8 → Hash8
  | 0, _, st => st
  | k + 1, r, st => roundsLoop ws k (r + 1) (roundStep ws r st)

/-- Wrapping member-wise addition of the working registers into the hash
registers after a block. -/
def addState (s t : Hash8) : Hash8 :=
  ⟨wadd s.v0 t.v0, wadd s.v1 t.v1, wadd s.v2 t.v2, wadd s.v3 t.v3,
   wadd s.v4 t.v4, wadd s.v5 t.v5, wadd s.v6 t.v6, wadd s.v7 t.v7⟩

/-- One emitted block: 16 byteswapped little-endian loads, 48 schedule
extensions, 64 rounds, then the feed-forward addition. -/
def processBlock (m : Mem) (base : Nat) (st : Hash8) : Hash8 :=
  let w16 := (List.range 16).map (fun i => bswap32 (load32 m (base + 4 * i)))
  let ws := schedule 48 w16
  addState st (roundsLoop ws 64 0 st)

/-- The emitted block loop: process blocks at offsets 0, 64, ... below
the padded length. -/
def blockLoop (m : Mem) (pptr : Nat) : Nat → Nat → Hash8 → Hash8
  | 0, _, st => st
  | k + 1, off, st => blockLoop m pptr k (off + 64) (processBlock m (pptr + off) st)

/-- The emitted digest store: eight big-endian word stores at
`a, a+4, ...`. -/
def writeDigest (m : Mem) (a : Nat) : List Nat → Mem
  | [] => m
  | v :: rest => writeDigest (storeBE32 m a v) (a + 4) rest

/-- The padded message buffer built by the emitted code at the bump
pointer: `memory.copy` of the payload, `0x80`, `memory.fill` zeros, and
two big-endian words (`bit_len_hi = 0` and `bit_len_lo`) at the end. -/
def padBuffer (m : Mem) (hp p len padded bitLo : Nat) : Mem :=
  storeBE32 (storeBE32 (memFill (store8 (memCopy m hp (p + 8) len)
    (hp + len) 128) (hp + len + 1) (sub32 (sub32 padded len) 9) 0)
    (sub32 (wrapU (hp + padded)) 8) 0) (sub32 (wrapU (hp + padded)) 4) bitLo

/-- Semantics of the emitted SHA-256 block on a pointer to a BYTES/STRING
object: build the padded buffer at the bump pointer (trapping when the
heap lacks room), run the block loop, then write a 40-byte BYTES object
(tag 4, length 32, big-endian digest words) at the bump pointer, advance
it by 40 and push the object's address. -/
def sha256Run (h : Heap) (p : Nat) : Option (Nat × Heap) :=
  let len := load32 h.mem (p + 4)
  let bitLo := wrapU (len * 8)
  let padded := wrapU (len + 72) / 64 * 64
  if wrapU (h.hp + padded) > HEAP_LIMIT then none
  else
    let m5 := padBuffer h.mem h.hp p len padded bitLo
    let st := blockLoop m5 h.hp (padded / 64) 0 H8init
    if wrapU (h.hp + 40) > HEAP_LIMIT then none
    else
      let m6 := store32 m5 h.hp 4
      let m7 := store32 m6 (h.hp + 4) 32
      let m8 := writeDigest m7 (h.hp + 8)
        [st.v0, st.v1, st.v2, st.v3, st.v4, st.v5, st.v6, st.v7]
      some (h.hp, ⟨m8, h.hp + 40⟩)

/-- Big-endian byte decomposition of a 32-bit word (FIPS word output). -/
def beBytes32 (v : Nat) : List Nat :=
  [v / 16777216 % 256, v / 65536 % 256, v / 256 % 256, v % 256]

/-- Big-endian concatenation of a list of words. -/
def beConcat : List Nat → List Nat
  | [] => []
  | v :: rest => beBytes32 v ++ beConcat rest

/-- FIPS 180-4 padding of a byte message: append `0x80`, the minimal
zero run, and the 64-bit big-endian bit length, reaching the next
multiple of 64 at or above `length + 9`. -/
def padSpec (bs : List Nat) : List Nat :=
  bs ++ 128 :: (List.replicate ((bs.length + 72) / 64 * 64 - bs.length - 9) 0
    ++ (beBytes32 (8 * bs.length / 4294967296) ++ beBytes32 (8 * bs.length % 4294967296)))

/-- FIPS message word `M_i`: big-endian assembly of bytes `4i..4i+3` of
the padded message. -/
def beWordAt (l : List Nat) (i : Nat) : Nat :=
  16777216 * l.getD (4 * i) 0 + 65536 * l.getD (4 * i + 1) 0 +
    256 * l.getD (4 * i + 2) 0 + l.getD (4 * i + 3) 0

/-- One FIPS compression round, with `K_t` and `W_t` read by direct
indexing. -/
def specRound (ws : List Nat) (r : Nat) (st : Hash8) : Hash8 :=
  let s1 := bigSig1 st.v4
  let ch := chFn st.v4 st.v5 st.v6
  let kv := K256.getD r 0
  let wv := ws.getD r 0
  let t1 := wadd (wadd (wadd (wadd st.v7 s1) ch) kv) wv
  let s0 := bigSig0 st.v0
  let mj := majFn st.v0 st.v1 st.v2
  let t2 := wadd s0 mj
  ⟨wadd t1 t2, st.v0, st.v1, st.v2, wadd st.v3 t1, st.v4, st.v5, st.v6⟩

/-- The FIPS 64-round loop. -/
def specRounds (ws : List Nat) : Nat → Nat → Hash8 → Hash8
  | 0, _, st => st
  | k + 1, r, st => specRounds ws k (r + 1) (specRound ws r st)

/-- FIPS processing of block `b` of the padded message. -/
def specCompress (l : List Nat) (b : Nat) (st : Hash8) : Hash8 :=
  let w16 := (List.range 16).map (fun i => beWordAt l (16 * b + i))
  let ws := schedule 48 w16
  addState st (specRounds ws 64 0 st)

/-- FIPS block iteration. -/
def specBlocks (l : List Nat) : Nat → Nat → Hash8 → Hash8
  | 0, _, st => st
  | k + 1, b, st => specBlocks l k (b + 1) (specCompress l b st)

/-- The FIPS 180-4 SHA-256 digest of a byte message, as 32 big-endian
bytes. -/
def sha256spec (bs : List Nat) : List Nat :=
  let l := padSpec bs
  let st := specBlocks l (l.length / 64) 0 H8init
  beConcat [st.v0, st.v1, st.v2, st.v3, st.v4, st.v5, st.v6, st.v7]

/-- The emitted hexdigest nibble mapping: `'0' + n` below 10, else
`'a' + (n - 10)`. -/
def hexChar (n : Nat) : Nat := if n < 10 then 48 + n else 97 + (n - 10)

/-- The emitted hexdigest byte expansion: high nibble `(b >> 4) & 0xF`
then low nibble `b & 0xF` of every byte. -/
def hexBytes : List Nat → List Nat
  | [] => []
  | b :: rest => hexChar ((b >>> 4) &&& 15) :: hexChar (b &&& 15) :: hexBytes rest

/-- A byte list as a Lean string (one character per byte). -/
def hexString (bs : List Nat) : String := String.mk (bs.map Char.ofNat)

theorem and255 (x : Nat) : x &&& 255 = x % 256 := by
  have h := Nat.and_pow_two_sub_one_eq_mod x 8
  norm_num at h
  exact h

/-- Masking with a byte at bit offset `k` extracts that byte field. -/
theorem and_mask_byte (x k : Nat) : x &&& (255 <<< k) = ((x >>> k) % 256) <<< k := by
  have h255 : (255 : Nat) = 2 ^ 8 - 1 := by norm_num
  have h256 : (256 : Nat) = 2 ^ 8 := by norm_num
  apply Nat.eq_of_testBit_eq
  intro i
  rw [Nat.testBit_and, h255, h256]
  simp only [Nat.testBit_shiftLeft, Nat.testBit_shiftRight, Nat.testBit_two_pow_sub_one,
    Nat.testBit_mod_two_pow]
  by_cases hk : k ≤ i
  · have hadd : k + (i - k) = i := by omega
    rw [hadd]
    simp [hk]
    exact Bool.and_comm _ _
  · simp [hk]

/-- The emitted byte swap really swaps the four bytes of a word. -/
theorem bswap32_bytes (b0 b1 b2 b3 : Nat)
    (h0 : b0 < 256) (h1 : b1 < 256) (h2 : b2 < 256) (h3 : b3 < 256) :
    bswap32 (b0 + 256 * b1 + 65536 * b2 + 16777216 * b3) =
      16777216 * b0 + 65536 * b1 + 256 * b2 + b3 := by
  have mask16 : ∀ y : Nat, y &&& 16711680 = y / 65536 % 256 * 65536 := by
    intro y
    have hc : (16711680 : Nat) = 255 <<< 16 := by
      rw [Nat.shiftLeft_eq]
    rw [hc, and_mask_byte, Nat.shiftLeft_eq, Nat.shiftRight_eq_div_pow]
  have mask8 : ∀ y : Nat, y &&& 65280 = y / 256 % 256 * 256 := by
    intro y
    have hc : (65280 : Nat) = 255 <<< 8 := by
      rw [Nat.shiftLeft_eq]
    rw [hc, and_mask_byte, Nat.shiftLeft_eq, Nat.shiftRight_eq_div_pow]
  set w := b0 + 256 * b1 + 65536 * b2 + 16777216 * b3 with hw
  unfold bswap32 wrapU
  rw [Nat.shiftLeft_eq, Nat.shiftLeft_eq, Nat.shiftRight_eq_div_pow,
    Nat.shiftRight_eq_div_pow]
  rw [show (2 : Nat) ^ 24 = 16777216 from by norm_num,
    show (2 : Nat) ^ 8 = 256 from by norm_num]
  rw [mask16, mask8]
  have hA : w * 16777216 % 4294967296 = 16777216 * b0 := by omega
  have hB : w * 256 % 4294967296 / 65536 % 256 * 65536 = 65536 * b1 := by omega
  have hC : w / 256 / 256 % 256 * 256 = 256 * b2 := by omega
  have hD : w / 16777216 = b3 := by omega
  rw [hA, hB, hC, hD]
  have o1 : (16777216 * b0) ||| (65536 * b1) = 16777216 * b0 + 65536 * b1 := by
    rw [show (16777216 : Nat) * b0 = 2 ^ 24 * b0 from by norm_num]
    exact (Nat.mul_add_lt_is_or (by omega) b0).symm
  have o2 : (16777216 * b0 + 65536 * b1) ||| (256 * b2) =
      16777216 * b0 + 65536 * b1 + 256 * b2 := by
    rw [show (16777216 : Nat) * b0 + 65536 * b1 = 2 ^ 16 * (256 * b0 + b1) from by ring]
    rw [(Nat.mul_add_lt_is_or (show 256 * b2 < 2 ^ 16 by omega) (256 * b0 + b1)).symm]
  have o3 : (16777216 * b0 + 65536 * b1 + 256 * b2) ||| b3 =
      16777216 * b0 + 65536 * b1 + 256 * b2 + b3 := by
    rw [show (16777216 : Nat) * b0 + 65536 * b1 + 256 * b2 =
      2 ^ 8 * (65536 * b0 + 256 * b1 + b2) from by ring]
    rw [(Nat.mul_add_lt_is_or (show b3 < 2 ^ 8 by omega) (65536 * b0 + 256 * b1 + b2)).symm]
  rw [o1, o2, o3]

theorem memCopy_in (m : Mem) (dst src n x : Nat) (h : dst ≤ x ∧ x < dst + n) :
    memCopy m dst src n x = m (src + (x - dst)) := by
  unfold memCopy
  rw [if_pos h]

theorem memCopy_out (m : Mem) (dst src n x : Nat) (h : ¬ (dst ≤ x ∧ x < dst + n)) :
    memCopy m dst src n x = m x := by
  unfold memCopy
  rw [if_neg h]

theorem memFill_in (m : Mem) (a n v x : Nat) (h : a ≤ x ∧ x < a + n) :
    memFill m a n v x = v % 256 := by
  unfold memFill
  rw [if_pos h]

theorem memFill_out (m : Mem) (a n v x : Nat) (h : ¬ (a ≤ x ∧ x < a + n)) :
    memFill m a n v x = m x := by
  unfold memFill
  rw [if_neg h]

theorem storeBE32_outside (m : Mem) (a v x : Nat) (h : x < a ∨ a + 4 ≤ x) :
    storeBE32 m a v x = m x := by
  unfold storeBE32
  rw [store8_other _ _ _ _ (by omega), store8_other _ _ _ _ (by omega),
    store8_other _ _ _ _ (by omega), store8_other _ _ _ _ (by omega)]

/-- The four bytes written by `storeBE32` are the big-endian bytes of the
word. -/
theorem storeBE32_byte (m : Mem) (a v : Nat) :
    ∀ t, t < 4 → storeBE32 m a v (a + t) = (beBytes32 v).getD t 0 := by
  intro t ht
  unfold storeBE32 beBytes32
  interval_cases t
  · rw [store8_other _ _ _ _ (by omega), store8_other _ _ _ _ (by omega),
      store8_other _ _ _ _ (by omega)]
    rw [show a + 0 = a from rfl, store8_same]
    rw [Nat.shiftRight_eq_div_pow]
    simp only [List.getD_cons_zero]
  · rw [store8_other _ _ _ _ (by omega), store8_other _ _ _ _ (by omega), store8_same]
    rw [and255, Nat.shiftRight_eq_div_pow]
    simp only [List.getD_cons_succ, List.getD_cons_zero]
    rw [show (2 : Nat) ^ 16 = 65536 from by norm_num]
    omega
  · rw [store8_other _ _ _ _ (by omega), store8_same]
    rw [and255, Nat.shiftRight_eq_div_pow]
    simp only [List.getD_cons_succ, List.getD_cons_zero]
    rw [show (2 : Nat) ^ 8 = 256 from by norm_num]
    omega
  · rw [store8_same]
    rw [and255]
    simp only [List.getD_cons_succ, List.getD_cons_zero]
    omega

/-- Closed form of the emitted if-ladder accumulator. -/
theorem ladderAux_spec (r : Nat) :
    ∀ (vals : List Nat) (i acc : Nat),
      ladderAux r i vals acc =
        if i ≤ r ∧ r - i < vals.length then vals.getD (r - i) 0 else acc := by
  intro vals
  induction vals with
  | nil =>
    intro i acc
    have hno : ¬ (i ≤ r ∧ r - i < ([] : List Nat).length) := by
      simp
    rw [if_neg hno]
    rfl
  | cons v rest ih =>
    intro i acc
    show ladderAux r (i + 1) rest (if r = i then v else acc) = _
    rw [ih (i + 1) (if r = i then v else acc)]
    by_cases hri : r = i
    · subst hri
      rw [if_neg (show ¬ (r + 1 ≤ r ∧ r - (r + 1) < rest.length) from by omega)]
      rw [if_pos (show r = r from rfl)]
      rw [if_pos (show r ≤ r ∧ r - r < (v :: rest).length from
        ⟨le_refl r, by simp only [List.length_cons]; omega⟩)]
      rw [Nat.sub_self]
      rfl
    · by_cases hle : i + 1 ≤ r
      · by_cases hlen : r - (i + 1) < rest.length
        · rw [if_pos (show i + 1 ≤ r ∧ r - (i + 1) < rest.length from ⟨hle, hlen⟩)]
          rw [if_pos (show i ≤ r ∧ r - i < (v :: rest).length from
            ⟨by omega, by simp only [List.length_cons]; omega⟩)]
          rw [show r - i = (r - (i + 1)) + 1 from by omega]
          rfl
        · rw [if_neg (show ¬ (i + 1 ≤ r ∧ r - (i + 1) < rest.length) from
            fun hc => hlen hc.2)]
          rw [if_neg (show ¬ (i ≤ r ∧ r - i < (v :: rest).length) from by
            simp only [List.length_cons]; omega)]
          rw [if_neg hri]
      · rw [if_neg (show ¬ (i + 1 ≤ r ∧ r - (i + 1) < rest.length) from by omega)]
        rw [if_neg (show ¬ (i ≤ r ∧ r - i < (v :: rest).length) from by
          simp only [List.length_cons]; omega)]
        rw [if_neg hri]

/-- The if-ladder selects the table entry at an in-range index. -/
theorem ladder_eq (r : Nat) (vals : List Nat) (h : r < vals.length) :
    ladder r vals = vals.getD r 0 := by
  unfold ladder
  rw [ladderAux_spec, if_pos (show 0 ≤ r ∧ r - 0 < vals.length from ⟨Nat.zero_le r, by omega⟩)]
  rw [Nat.sub_zero]

/-- The schedule loop appends exactly `k` words. -/
theorem schedule_length : ∀ (k : Nat) (ws : List Nat),
    (schedule k ws).length = ws.length + k := by
  intro k
  induction k with
  | zero => intro ws; rfl
  | succ k ih =>
    intro ws
    show (schedule k _).length = _
    rw [ih, List.length_append]
    simp only [List.length_cons, List.length_nil]
    omega

/-- With the schedule in range, the emitted round equals the FIPS
round. -/
theorem roundStep_eq (ws : List Nat) (hws : ws.length = 64) (r : Nat) (hr : r < 64)
    (st : Hash8) : roundStep ws r st = specRound ws r st := by
  have hK : K256.length = 64 := rfl
  unfold roundStep specRound
  rw [ladder_eq r K256 (by omega), ladder_eq r ws (by omega)]

/-- With the schedule in range, the emitted round loop equals the FIPS
round loop. -/
theorem roundsLoop_eq (ws : List Nat) (hws : ws.length = 64) :
    ∀ (k r : Nat) (st : Hash8), r + k ≤ 64 →
      roundsLoop ws k r st = specRounds ws k r st := by
  intro k
  induction k with
  | zero => intro r st _; rfl
  | succ k ih =>
    intro r st hrk
    show roundsLoop ws k (r + 1) (roundStep ws r st) = _
    rw [roundStep_eq ws hws r (by omega) st]
    exact ih (r + 1) (specRound ws r st) (by omega)

/-- A byteswapped little-endian load of four region bytes is the FIPS
big-endian message word. -/
theorem loadWord_eq (m : Mem) (pptr : Nat) (l : List Nat)
    (hreg : ∀ i, i < l.length → m (pptr + i) = l.getD i 0)
    (hlb : ∀ i, l.getD i 0 < 256)
    (j : Nat) (hj : 4 * j + 4 ≤ l.length) :
    bswap32 (load32 m (pptr + 4 * j)) = beWordAt l j := by
  have e0 := hreg (4 * j) (by omega)
  have e1 := hreg (4 * j + 1) (by omega)
  have e2 := hreg (4 * j + 2) (by omega)
  have e3 := hreg (4 * j + 3) (by omega)
  unfold load32
  rw [show pptr + 4 * j + 1 = pptr + (4 * j + 1) from by omega,
    show pptr + 4 * j + 2 = pptr + (4 * j + 2) from by omega,
    show pptr + 4 * j + 3 = pptr + (4 * j + 3) from by omega,
    e0, e1, e2, e3]
  rw [bswap32_bytes _ _ _ _ (hlb _) (hlb _) (hlb _) (hlb _)]
  rfl

/-- One emitted block over the padded region equals one FIPS block. -/
theorem processBlock_eq (m : Mem) (pptr : Nat) (l : List Nat)
    (hreg : ∀ i, i < l.length → m (pptr + i) = l.getD i 0)
    (hlb : ∀ i, l.getD i 0 < 256)
    (b : Nat) (st : Hash8) (hb : 64 * b + 64 ≤ l.length) :
    processBlock m (pptr + 64 * b) st = specCompress l b st := by
  simp only [processBlock, specCompress]
  have hw : ((List.range 16).map (fun i => bswap32 (load32 m (pptr + 64 * b + 4 * i)))) =
      (List.range 16).map (fun i => beWordAt l (16 * b + i)) := by
    apply List.map_congr_left
    intro i hi
    rw [List.mem_range] at hi
    rw [show pptr + 64 * b + 4 * i = pptr + 4 * (16 * b + i) from by omega]
    exact loadWord_eq m pptr l hreg hlb (16 * b + i) (by omega)
  rw [hw]
  rw [roundsLoop_eq (schedule 48 ((List.range 16).map fun i => beWordAt l (16 * b + i)))
    (by rw [schedule_length, List.length_map, List.length_range]) 64 0 st (by omega)]

/-- The emitted block loop over the padded region equals the FIPS block
iteration. -/
theorem blockLoop_eq (m : Mem) (pptr : Nat) (l : List Nat)
    (hreg : ∀ i, i < l.length → m (pptr + i) = l.getD i 0)
    (hlb : ∀ i, l.getD i 0 < 256) :
    ∀ (k b : Nat) (st : Hash8), 64 * (b + k) ≤ l.length →
      blockLoop m pptr k (64 * b) st = specBlocks l k b st := by
  intro k
  induction k with
  | zero => intro b st _; rfl
  | succ k ih =>
    intro b st hbk
    show blockLoop m pptr k (64 * b + 64) (processBlock m (pptr + 64 * b) st) = _
    rw [processBlock_eq m pptr l hreg hlb b st (by omega)]
    rw [show 64 * b + 64 = 64 * (b + 1) from by omega]
    exact ih (b + 1) (specCompress l b st) (by omega)

/-- The FIPS padded message fills the rounded-up buffer exactly. -/
theorem padSpec_length (bs : List Nat) :
    (padSpec bs).length = (bs.length + 72) / 64 * 64 := by
  unfold padSpec beBytes32
  simp only [List.length_append, List.length_cons, List.length_replicate,
    List.length_nil]
  omega

/-- Every padded-message entry is a byte. -/
theorem padSpec_lt (bs : List Nat) (hbs : ∀ x ∈ bs, x < 256) :
    ∀ i, (padSpec bs).getD i 0 < 256 := by
  intro i
  by_cases hlen : i < (padSpec bs).length
  · rw [List.getD_eq_getElem _ _ hlen]
    have hx : (padSpec bs)[i] ∈ padSpec bs := List.getElem_mem _
    revert hx
    generalize (padSpec bs)[i] = x
    intro hx
    unfold padSpec beBytes32 at hx
    simp only [List.mem_append, List.mem_cons, List.mem_replicate,
      List.mem_singleton, List.not_mem_nil, or_false] at hx
    rcases hx with hx | hx | hx | hx
    · exact hbs x hx
    · omega
    · omega
    · rcases hx with hx | hx
      · rcases hx with hx | hx | hx | hx <;> omega
      · rcases hx with hx | hx | hx | hx <;> omega
  · rw [List.getD_eq_default _ _ (by omega)]
    omega

theorem padSpec_getD_low (bs : List Nat) (i : Nat) (hi : i < bs.length) :
    (padSpec bs).getD i 0 = bs.getD i 0 :=
  List.getD_append _ _ _ _ hi

theorem padSpec_getD_128 (bs : List Nat) :
    (padSpec bs).getD bs.length 0 = 128 := by
  unfold padSpec
  rw [List.getD_append_right _ _ _ _ (le_refl _), Nat.sub_self]
  rfl

theorem padSpec_getD_zero (bs : List Nat) (i : Nat) (h1 : bs.length < i)
    (h2 : i < (bs.length + 72) / 64 * 64 - 8) :
    (padSpec bs).getD i 0 = 0 := by
  unfold padSpec
  rw [List.getD_append_right _ _ _ _ (by omega)]
  rw [show i - bs.length = (i - bs.length - 1) + 1 from by omega]
  rw [List.getD_cons_succ]
  rw [List.getD_append _ _ _ _ (by rw [List.length_replicate]; omega)]
  rw [List.getD_eq_getElem _ _ (by rw [List.length_replicate]; omega),
    List.getElem_replicate]

theorem padSpec_getD_hi (bs : List Nat) (t : Nat) (ht : t < 4) :
    (padSpec bs).getD ((bs.length + 72) / 64 * 64 - 8 + t) 0 =
      (beBytes32 (8 * bs.length / 4294967296)).getD t 0 := by
  unfold padSpec
  rw [List.getD_append_right _ _ _ _ (by omega)]
  rw [show (bs.length + 72) / 64 * 64 - 8 + t - bs.length =
      ((bs.length + 72) / 64 * 64 - 8 + t - bs.length - 1) + 1 from by omega]
  rw [List.getD_cons_succ]
  rw [List.getD_append_right _ _ _ _ (by rw [List.length_replicate]; omega)]
  rw [List.getD_append _ _ _ _ (by
    rw [List.length_replicate]
    show _ < (beBytes32 (8 * bs.length / 4294967296)).length
    rw [show (beBytes32 (8 * bs.length / 4294967296)).length = 4 from rfl]
    omega)]
  rw [List.length_replicate]
  rw [show (bs.length + 72) / 64 * 64 - 8 + t - bs.length - 1 -
      ((bs.length + 72) / 64 * 64 - bs.length - 9) = t from by omega]

theorem padSpec_getD_lo (bs : List Nat) (t : Nat) (ht : t < 4) :
    (padSpec bs).getD ((bs.length + 72) / 64 * 64 - 4 + t) 0 =
      (beBytes32 (8 * bs.length % 4294967296)).getD t 0 := by
  unfold padSpec
  rw [List.getD_append_right _ _ _ _ (by omega)]
  rw [show (bs.length + 72) / 64 * 64 - 4 + t - bs.length =
      ((bs.length + 72) / 64 * 64 - 4 + t - bs.length - 1) + 1 from by omega]
  rw [List.getD_cons_succ]
  rw [List.getD_append_right _ _ _ _ (by rw [List.length_replicate]; omega)]
  rw [List.getD_append_right _ _ _ _ (by
    rw [List.length_replicate]
    show (beBytes32 (8 * bs.length / 4294967296)).length ≤ _
    rw [show (beBytes32 (8 * bs.length / 4294967296)).length = 4 from rfl]
    omega)]
  rw [List.length_replicate]
  rw [show (beBytes32 (8 * bs.length / 4294967296)).length = 4 from rfl]
  rw [show (bs.length + 72) / 64 * 64 - 4 + t - bs.length - 1 -
      ((bs.length + 72) / 64 * 64 - bs.length - 9) - 4 = t from by omega]

theorem writeDigest_outside : ∀ (vs : List Nat) (m : Mem) (a x : Nat),
    (x < a ∨ a + 4 * vs.length ≤ x) → writeDigest m a vs x = m x := by
  intro vs
  induction vs with
  | nil => intro m a x _; rfl
  | cons v rest ih =>
    intro m a x hx
    simp only [List.length_cons] at hx
    show writeDigest (storeBE32 m a v) (a + 4) rest x = m x
    rw [ih _ _ _ (by omega)]
    exact storeBE32_outside _ _ _ _ (by omega)

theorem writeDigest_read : ∀ (vs : List Nat) (m : Mem) (a j t : Nat),
    j < vs.length → t < 4 →
    writeDigest m a vs (a + (4 * j + t)) = (beBytes32 (vs.getD j 0)).getD t 0 := by
  intro vs
  induction vs with
  | nil => intro m a j t hj _; simp at hj
  | cons v rest ih =>
    intro m a j t hj ht
    show writeDigest (storeBE32 m a v) (a + 4) rest (a + (4 * j + t)) = _
    rcases Nat.eq_zero_or_pos j with rfl | hpos
    · rw [writeDigest_outside rest _ _ _ (Or.inl (by omega))]
      rw [show a + (4 * 0 + t) = a + t from by omega]
      exact storeBE32_byte m a v t ht
    · obtain ⟨j', rfl⟩ : ∃ j', j = j' + 1 := ⟨j - 1, by omega⟩
      rw [show a + (4 * (j' + 1) + t) = (a + 4) + (4 * j' + t) from by omega]
      simp only [List.length_cons] at hj
      rw [ih _ _ _ _ (by omega) ht]
      rfl

theorem beConcat_length : ∀ vs : List Nat, (beConcat vs).length = 4 * vs.length := by
  intro vs
  induction vs with
  | nil => rfl
  | cons v rest ih =>
    show (beBytes32 v ++ beConcat rest).length = _
    rw [List.length_append, ih, show (beBytes32 v).length = 4 from rfl]
    simp only [List.length_cons]
    omega

theorem beConcat_getD : ∀ (vs : List Nat) (j t : Nat), j < vs.length → t < 4 →
    (beConcat vs).getD (4 * j + t) 0 = (beBytes32 (vs.getD j 0)).getD t 0 := by
  intro vs
  induction vs with
  | nil => intro j t hj _; simp at hj
  | cons v rest ih =>
    intro j t hj ht
    show (beBytes32 v ++ beConcat rest).getD (4 * j + t) 0 = _
    rcases Nat.eq_zero_or_pos j with rfl | hpos
    · rw [show 4 * 0 + t = t from by omega]
      rw [List.getD_append _ _ _ _ (by
        rw [show (beBytes32 v).length = 4 from rfl]
        omega)]
      rfl
    · obtain ⟨j', rfl⟩ : ∃ j', j = j' + 1 := ⟨j - 1, by omega⟩
      rw [List.getD_append_right _ _ _ _ (by
        rw [show (beBytes32 v).length = 4 from rfl]
        omega)]
      rw [show (beBytes32 v).length = 4 from rfl]
      rw [show 4 * (j' + 1) + t - 4 = 4 * j' + t from by omega]
      simp only [List.length_cons] at hj
      rw [ih j' t (by omega) ht]
      rfl

/-- The digest is always 32 bytes. -/
theorem sha256spec_length (bs : List Nat) : (sha256spec bs).length = 32 := by
  simp only [sha256spec]
  rw [beConcat_length]
  rfl

/-- Writing the eight digest words after the tag and length produces a
well-formed 32-byte BYTES object holding their big-endian bytes. -/
theorem digestObj_spec (m5 : Mem) (hp : Nat) (st : Hash8) :
    bytesObj (writeDigest (store32 (store32 m5 hp 4) (hp + 4) 32) (hp + 8)
        [st.v0, st.v1, st.v2, st.v3, st.v4, st.v5, st.v6, st.v7]) hp
      (beConcat [st.v0, st.v1, st.v2, st.v3, st.v4, st.v5, st.v6, st.v7]) := by
  have hvs : ([st.v0, st.v1, st.v2, st.v3, st.v4, st.v5, st.v6, st.v7] : List Nat).length = 8 :=
    rfl
  have houter : ∀ x, x < hp + 8 →
      writeDigest (store32 (store32 m5 hp 4) (hp + 4) 32) (hp + 8)
        [st.v0, st.v1, st.v2, st.v3, st.v4, st.v5, st.v6, st.v7] x =
      (store32 (store32 m5 hp 4) (hp + 4) 32) x := by
    intro x hx
    exact writeDigest_outside _ _ _ _ (Or.inl (by omega))
  refine ⟨?_, ?_, ?_⟩
  · have w1 := load32_agree
      (writeDigest (store32 (store32 m5 hp 4) (hp + 4) 32) (hp + 8)
        [st.v0, st.v1, st.v2, st.v3, st.v4, st.v5, st.v6, st.v7])
      (store32 (store32 m5 hp 4) (hp + 4) 32) hp (fun i hi => houter _ (by omega))
    have w2 := load32_agree (store32 (store32 m5 hp 4) (hp + 4) 32)
      (store32 m5 hp 4) hp (fun i hi => store32_outside _ _ _ _ (by omega))
    rw [w1, w2, load32_store32 _ _ _ (by omega)]
  · have w1 := load32_agree
      (writeDigest (store32 (store32 m5 hp 4) (hp + 4) 32) (hp + 8)
        [st.v0, st.v1, st.v2, st.v3, st.v4, st.v5, st.v6, st.v7])
      (store32 (store32 m5 hp 4) (hp + 4) 32) (hp + 4) (fun i hi => houter _ (by omega))
    rw [w1, load32_store32 _ _ _ (by omega), beConcat_length, hvs]
  · apply readBytes_of_getD
    intro i hi
    rw [beConcat_length, hvs] at hi
    obtain ⟨j, t, ht4, hj8, rfl⟩ : ∃ j t, t < 4 ∧ j < 8 ∧ i = 4 * j + t :=
      ⟨i / 4, i % 4, by omega, by omega, by omega⟩
    rw [writeDigest_read _ _ _ j t (by rw [hvs]; omega) ht4]
    rw [beConcat_getD _ j t (by rw [hvs]; omega) ht4]

/-- Pointwise: the buffer built by the emitted padding code holds exactly
the FIPS padded message. -/
theorem padBuffer_spec (m : Mem) (hp p : Nat) (bs : List Nat)
    (hm : byteMem m) (hb : readBytes m (p + 8) bs.length = bs)
    (hpb : p + 8 + bs.length ≤ hp)
    (hsz : hp + (bs.length + 72) / 64 * 64 ≤ 4194304) :
    ∀ i, i < (bs.length + 72) / 64 * 64 →
      padBuffer m hp p bs.length ((bs.length + 72) / 64 * 64) (wrapU (bs.length * 8))
        (hp + i) = (padSpec bs).getD i 0 := by
  intro i hi
  have hP9 : bs.length + 9 ≤ (bs.length + 72) / 64 * 64 := by omega
  have hP32 : hp + (bs.length + 72) / 64 * 64 < 4294967296 := by omega
  have haddr : wrapU (hp + (bs.length + 72) / 64 * 64) =
      hp + (bs.length + 72) / 64 * 64 := Nat.mod_eq_of_lt (by omega)
  have ha8 : sub32 (wrapU (hp + (bs.length + 72) / 64 * 64)) 8 =
      hp + ((bs.length + 72) / 64 * 64 - 8) := by
    rw [haddr]
    unfold sub32 wrapU
    omega
  have ha4 : sub32 (wrapU (hp + (bs.length + 72) / 64 * 64)) 4 =
      hp + ((bs.length + 72) / 64 * 64 - 4) := by
    rw [haddr]
    unfold sub32 wrapU
    omega
  have hfill : sub32 (sub32 ((bs.length + 72) / 64 * 64) bs.length) 9 =
      (bs.length + 72) / 64 * 64 - bs.length - 9 := by
    unfold sub32 wrapU
    omega
  unfold padBuffer
  rw [ha8, ha4, hfill]
  by_cases hc1 : i < bs.length
  · rw [storeBE32_outside _ _ _ _ (by omega), storeBE32_outside _ _ _ _ (by omega)]
    rw [memFill_out _ _ _ _ _ (by omega)]
    rw [store8_other _ _ _ _ (by omega)]
    rw [memCopy_in _ _ _ _ _ ⟨by omega, by omega⟩]
    rw [show p + 8 + (hp + i - hp) = p + 8 + i from by omega]
    rw [padSpec_getD_low bs i hc1]
    exact readBytes_getD m bs.length (p + 8) bs hb i hc1
  · by_cases hc2 : i = bs.length
    · subst hc2
      rw [storeBE32_outside _ _ _ _ (by omega), storeBE32_outside _ _ _ _ (by omega)]
      rw [memFill_out _ _ _ _ _ (by omega)]
      rw [store8_same]
      rw [padSpec_getD_128]
    · by_cases hc3 : i < (bs.length + 72) / 64 * 64 - 8
      · rw [storeBE32_outside _ _ _ _ (by omega), storeBE32_outside _ _ _ _ (by omega)]
        rw [memFill_in _ _ _ _ _ ⟨by omega, by omega⟩]
        rw [padSpec_getD_zero bs i (by omega) hc3]
      · by_cases hc4 : i < (bs.length + 72) / 64 * 64 - 4
        · obtain ⟨t, ht4, rfl⟩ : ∃ t, t < 4 ∧ i = (bs.length + 72) / 64 * 64 - 8 + t :=
            ⟨i - ((bs.length + 72) / 64 * 64 - 8), by omega, by omega⟩
          rw [storeBE32_outside _ _ _ _ (by omega)]
          rw [show hp + ((bs.length + 72) / 64 * 64 - 8 + t) =
            (hp + ((bs.length + 72) / 64 * 64 - 8)) + t from by omega]
          rw [storeBE32_byte _ _ _ t ht4]
          rw [padSpec_getD_hi bs t ht4]
          rw [show 8 * bs.length / 4294967296 = 0 from by omega]
        · obtain ⟨t, ht4, rfl⟩ : ∃ t, t < 4 ∧ i = (bs.length + 72) / 64 * 64 - 4 + t :=
            ⟨i - ((bs.length + 72) / 64 * 64 - 4), by omega, by omega⟩
          rw [show hp + ((bs.length + 72) / 64 * 64 - 4 + t) =
            (hp + ((bs.length + 72) / 64 * 64 - 4)) + t from by omega]
          rw [storeBE32_byte _ _ _ t ht4]
          rw [padSpec_getD_lo bs t ht4]
          rw [show wrapU (bs.length * 8) = 8 * bs.length % 4294967296 from by
            unfold wrapU
            omega]

/-- **C5, counterexample.** The claim's program
`OUTPUT = hashlib.sha256("abc".encode()).hexdigest()` does not compile,
so compiling-and-running it cannot yield the claimed string: its
outermost expression is a `Call` whose callee is an `Attribute`, which
both lowerings reject at once — whatever the defined-function table —
and the `compiler/` lowering rejects the inner "abc" string literal as
well. -/
theorem C5_counterexample :
    (∀ defined, lowerExpr defined C5progAst =
      Except.error "Only simple function calls supported") ∧
    (∀ defined, pcLowerExpr defined C5progAst =
      Except.error "Only simple function calls supported") ∧
    (∀ defined, lowerExpr defined (.constant (.str "abc")) =
      Except.error "String literals require runtime support") := by
  refine ⟨?_, ?_, ?_⟩
  · intro defined
    simp [C5progAst, lowerExpr]
  · intro defined
    simp [C5progAst, pcLowerExpr]
  · intro defined
    simp [lowerExpr]

set_option maxRecDepth 100000 in
/-- **C5 (amended).** For every BYTES object (with heap room for the
padded buffer), the emitted SHA-256 block pushes the old bump pointer,
which now heads a 40-byte BYTES object (tag 4, length 32) whose 32-byte
payload is the FIPS 180-4 SHA-256 digest of the input payload; and the
emitted hexdigest nibble mapping applied to that digest model at "abc"
gives "ba7816bf8f01cfea414140de5dae2223b00361a396177a9cb410ff61f20015ad".
(The claim's `import hashlib` program itself is rejected by the
compiler front end — see the counterexample — and `codegen.rs` never
emits the `memory.rs` sha256 block, so no compiled program reaches
it.) -/
theorem C5_sha256 (h : Heap) (p : Nat) (bs : List Nat)
    (hm : byteMem h.mem) (hobj : bytesObj h.mem p bs)
    (hpb : p + 8 + bs.length ≤ h.hp)
    (hroom : h.hp + (bs.length + 72) / 64 * 64 ≤ HEAP_LIMIT) :
    (∃ m', sha256Run h p = some (h.hp, ⟨m', h.hp + 40⟩) ∧
        bytesObj m' h.hp (sha256spec bs) ∧ (sha256spec bs).length = 32) ∧
      hexString (hexBytes (sha256spec [97, 98, 99])) =
        "ba7816bf8f01cfea414140de5dae2223b00361a396177a9cb410ff61f20015ad" := by
  obtain ⟨-, hlen, hbytes⟩ := hobj
  have hHL : HEAP_LIMIT = 4194304 := rfl
  simp only [sha256Run]
  rw [hlen]
  rw [show wrapU (bs.length + 72) = bs.length + 72 from Nat.mod_eq_of_lt (by omega)]
  rw [show wrapU (h.hp + (bs.length + 72) / 64 * 64) =
    h.hp + (bs.length + 72) / 64 * 64 from Nat.mod_eq_of_lt (by omega)]
  rw [if_neg (show ¬ h.hp + (bs.length + 72) / 64 * 64 > HEAP_LIMIT from by omega)]
  rw [show wrapU (h.hp + 40) = h.hp + 40 from Nat.mod_eq_of_lt (by omega)]
  rw [if_neg (show ¬ h.hp + 40 > HEAP_LIMIT from by omega)]
  set M5 : Mem := padBuffer h.mem h.hp p bs.length ((bs.length + 72) / 64 * 64)
    (wrapU (bs.length * 8)) with hM5
  have hbsb : ∀ x ∈ bs, x < 256 := by
    intro x hx
    obtain ⟨j, hj, rfl⟩ := List.mem_iff_getElem.mp hx
    rw [← List.getD_eq_getElem bs 0 hj,
      ← readBytes_getD h.mem bs.length (p + 8) bs hbytes j hj]
    exact hm _
  have hlb := padSpec_lt bs hbsb
  have hreg : ∀ i, i < (padSpec bs).length → M5 (h.hp + i) = (padSpec bs).getD i 0 := by
    intro i hi
    rw [padSpec_length] at hi
    rw [hM5]
    exact padBuffer_spec h.mem h.hp p bs hm hbytes hpb (by omega) i hi
  have hst : blockLoop M5 h.hp ((bs.length + 72) / 64 * 64 / 64) 0 H8init =
      specBlocks (padSpec bs) ((padSpec bs).length / 64) 0 H8init := by
    have h0 := blockLoop_eq M5 h.hp (padSpec bs) hreg hlb
      ((bs.length + 72) / 64 * 64 / 64) 0 H8init (by rw [padSpec_length]; omega)
    rw [show (64 : Nat) * 0 = 0 from rfl] at h0
    rw [h0, padSpec_length]
  rw [hst]
  exact ⟨⟨_, rfl, digestObj_spec M5 h.hp _, sha256spec_length bs⟩, by decide⟩

/-- Concrete heap for the C5 witness: the 3-byte BYTES object "abc" at
2048, bump pointer 2064. -/
def C5heap : Heap :=
  ⟨writeBytes (fun _ => 0) 2048 [4, 0, 0, 0, 3, 0, 0, 0, 97, 98, 99], 2064⟩

/-- **C5, witness.** The SHA-256 theorem applied to the BYTES object
"abc" of the concrete heap. -/
theorem C5_witness :
    (∃ m', sha256Run C5heap 2048 = some (2064, ⟨m', 2064 + 40⟩) ∧
        bytesObj m' 2064 (sha256spec [97, 98, 99]) ∧
        (sha256spec [97, 98, 99]).length = 32) ∧
      hexString (hexBytes (sha256spec [97, 98, 99])) =
        "ba7816bf8f01cfea414140de5dae2223b00361a396177a9cb410ff61f20015ad" :=
  C5_sha256 C5heap 2048 [97, 98, 99]
    (writeBytes_byteMem _ _ byteMem_zeroMem _)
    (by unfold bytesObj; decide) (by decide) (by decide)

/-- `MAX_PYTHON_SIZE`: the 100 KiB source-size gate. -/
def MAX_PYTHON_SIZE : Nat := 100 * 1024

/-- UTF-8 bytes of a source string (`python_code.as_bytes()`). -/
def strBytes (s : String) : List Nat :=
  (s.data.flatMap String.utf8EncodeChar).map (fun b => b.toNat)

/-- `hex::encode(Sha256::digest(code))`: the lowercase-hex cache key. -/
def codeHash (code : String) : String := hexString (hexBytes (sha256spec (strBytes code)))

/-- The compiler state: the content-addressed cache
(`HashMap<String, Arc<Vec<u8>>>` as an association list, most recent
insertion first). -/
structure PyCompiler where
  cache : List (String × List Nat)

/-- `PythonCompiler::new()`: empty cache. -/
def PyCompiler.new : PyCompiler := ⟨[]⟩

/-- Cache lookup by key. -/
def cacheGet : List (String × List Nat) → String → Option (List Nat)
  | [], _ => none
  | (k', v) :: rest, k => if k = k' then some v else cacheGet rest k

/-- `PythonCompiler::compile`, parameterized by the pure
parse→lower→codegen pipeline (those helpers construct fresh `IRLowering`
and `WasmCodegen` values, so they are functions of the source alone):
reject sources over 100 KiB, return cached bytes on a cache hit keyed by
the hex SHA-256 of the source, otherwise run the pipeline and store the
result. -/
def PyCompiler.compile (pipeline : String → Except String (List Nat))
    (c : PyCompiler) (code : String) : Except String (List Nat) × PyCompiler :=
  if (strBytes code).length > MAX_PYTHON_SIZE then
    (Except.error "Python code exceeds 100KB limit", c)
  else
    match cacheGet c.cache (codeHash code) with
    | some cached => (Except.ok cached, c)
    | none =>
      match pipeline code with
      | Except.error e => (Except.error e, c)
      | Except.ok wasm => (Except.ok wasm, ⟨(codeHash code, wasm) :: c.cache⟩)

theorem compile_size (P : String → Except String (List Nat)) (c : PyCompiler)
    (s : String) (hsz : (strBytes s).length > MAX_PYTHON_SIZE) :
    PyCompiler.compile P c s = (Except.error "Python code exceeds 100KB limit", c) := by
  unfold PyCompiler.compile
  rw [if_pos hsz]

theorem compile_hit (P : String → Except String (List Nat)) (c : PyCompiler)
    (s : String) (w : List Nat) (hsz : ¬ (strBytes s).length > MAX_PYTHON_SIZE)
    (hg : cacheGet c.cache (codeHash s) = some w) :
    PyCompiler.compile P c s = (Except.ok w, c) := by
  unfold PyCompiler.compile
  rw [if_neg hsz, hg]

theorem compile_miss_ok (P : String → Except String (List Nat)) (c : PyCompiler)
    (s : String) (w : List Nat) (hsz : ¬ (strBytes s).length > MAX_PYTHON_SIZE)
    (hg : cacheGet c.cache (codeHash s) = none) (hp : P s = Except.ok w) :
    PyCompiler.compile P c s = (Except.ok w, ⟨(codeHash s, w) :: c.cache⟩) := by
  unfold PyCompiler.compile
  rw [if_neg hsz, hg, hp]

theorem compile_miss_err (P : String → Except String (List Nat)) (c : PyCompiler)
    (s : String) (e : String) (hsz : ¬ (strBytes s).length > MAX_PYTHON_SIZE)
    (hg : cacheGet c.cache (codeHash s) = none) (hp : P s = Except.error e) :
    PyCompiler.compile P c s = (Except.error e, c) := by
  unfold PyCompiler.compile
  rw [if_neg hsz, hg, hp]

/-- **C1.** Compilation is deterministic across calls and instances: if a
compile call accepts `s` with bytes `w`, then a second call on the
resulting instance returns exactly `w` — even under a different pipeline,
so the cached bytes are returned without re-running parse/lower/codegen —
and any two fresh instances agree byte-for-byte on `s`. -/
theorem C1_compile_deterministic (P Q : String → Except String (List Nat))
    (c0 : PyCompiler) (s : String) (w : List Nat)
    (h : (PyCompiler.compile P c0 s).1 = Except.ok w) :
    (PyCompiler.compile Q (PyCompiler.compile P c0 s).2 s).1 = Except.ok w ∧
      ∀ c1 c2 : PyCompiler, c1.cache = [] → c2.cache = [] →
        (PyCompiler.compile P c1 s).1 = (PyCompiler.compile P c2 s).1 := by
  constructor
  · by_cases hsz : (strBytes s).length > MAX_PYTHON_SIZE
    · rw [compile_size P c0 s hsz] at h
      exact absurd h (by simp)
    · cases hg : cacheGet c0.cache (codeHash s) with
      | some cached =>
        rw [compile_hit P c0 s cached hsz hg] at h ⊢
        have hcw : cached = w := by
          injection h with h1
        subst hcw
        rw [compile_hit Q c0 s cached hsz hg]
      | none =>
        cases hp : P s with
        | error e =>
          rw [compile_miss_err P c0 s e hsz hg hp] at h
          exact absurd h (by simp)
        | ok wasm =>
          rw [compile_miss_ok P c0 s wasm hsz hg hp] at h ⊢
          have hcw : wasm = w := by
            injection h with h1
          subst hcw
          rw [compile_hit Q _ s wasm hsz (by
            show cacheGet ((codeHash s, wasm) :: c0.cache) (codeHash s) = some wasm
            unfold cacheGet
            rw [if_pos rfl])]
  · intro c1 c2 h1 h2
    cases c1 with
    | mk k1 =>
      cases c2 with
      | mk k2 =>
        simp only at h1 h2
        rw [h1, h2]

/-- **C1, witness.** On a fresh instance with a pipeline accepting "x",
the second compile on the same instance returns the identical bytes. -/
theorem C1_witness :
    (PyCompiler.compile (fun _ => Except.ok [0, 97])
      (PyCompiler.compile (fun _ => Except.ok [0, 97]) PyCompiler.new "x").2 "x").1 =
      Except.ok [0, 97] :=
  (C1_compile_deterministic (fun _ => Except.ok [0, 97]) (fun _ => Except.ok [0, 97])
    PyCompiler.new "x" [0, 97] (by rfl)).1

end Certus
